import Mathlib

/-!
Verification of the rinko_backend satellite/feed subsystem.

This file gives a shallow embedding, in Lean 4, of the pure cores of the
rinko-backend Rust code:

* AMSAT API name parsing and alias generation
  (`src/rinko-backend/src/module/sat/amsat_types.rs`),
* the entry-store search (`src/rinko-backend/src/module/sat/manager.rs`),
* hourly report merging with 48-hour retention (`merge_reports`,
  `get_time_block`, `clean_old_reports` in the same file),
* the scheduled-task trigger computation
  (`src/rinko-backend/src/module/scheduled.rs`),
* the LoTW latency parser (`src/rinko-backend/src/module/lotw/parser.rs`),
* the satellite-list scrape plumbing and its superseded fallback variant
  (`src/rinko-backend/src/module/sat/scraper.rs`,
  `src/rinko-backend/src/model/sat/scraper.rs`),
* the command router and media-server health gate
  (`src/rinko-backend/src/module/handler.rs`).

Modelling conventions:

* Rust `String`/`&str` values are Lean `String`s; the byte-index string
  operations of the source are modelled on `List Char`.  All indices the
  source uses are boundaries of ASCII characters, where byte indices and
  character indices coincide, and Rust's byte-lexicographic `str` ordering
  coincides with the code-point lexicographic ordering modelled here
  (UTF-8 preserves lexicographic order of scalar-value sequences).
* `chrono::DateTime` instants are total nanosecond counts since the Unix
  epoch (`Int`).  Civil (proleptic-Gregorian, UTC) field extraction uses
  floor division, exactly as chrono does.
* Case mapping is modelled for ASCII; all mode keywords and satellite
  names in the source are ASCII.
* Fallible Rust functions (`Result`, `?`) are modelled with `Option` /
  `Except`.
-/

namespace Rinko

/-! ## Character and string primitives (Rust semantics) -/

/-- Rust `char::is_ascii_digit` (code points 48-57). -/
def isAsciiDigitChar (c : Char) : Bool := 48 ≤ c.toNat && c.toNat ≤ 57

/-- Rust `char::is_whitespace`: the Unicode `White_Space` property. -/
def rustIsWhitespace (c : Char) : Bool :=
  c.toNat == 9 || c.toNat == 10 || c.toNat == 11 || c.toNat == 12 || c.toNat == 13 ||
  c.toNat == 32 || c.toNat == 0x85 || c.toNat == 0xA0 || c.toNat == 0x1680 ||
  (0x2000 ≤ c.toNat && c.toNat ≤ 0x200A) || c.toNat == 0x2028 || c.toNat == 0x2029 ||
  c.toNat == 0x202F || c.toNat == 0x205F || c.toNat == 0x3000

/-- Rust `char::is_ascii_punctuation`. -/
def isAsciiPunct (c : Char) : Bool :=
  (0x21 ≤ c.toNat && c.toNat ≤ 0x2F) || (0x3A ≤ c.toNat && c.toNat ≤ 0x40) ||
  (0x5B ≤ c.toNat && c.toNat ≤ 0x60) || (0x7B ≤ c.toNat && c.toNat ≤ 0x7E)

/-- ASCII upper-casing of one character (the source only upper-cases ASCII names). -/
def asciiUpperChar (c : Char) : Char :=
  if 97 ≤ c.toNat && c.toNat ≤ 122 then Char.ofNat (c.toNat - 32) else c

/-- ASCII lower-casing of one character. -/
def asciiLowerChar (c : Char) : Char :=
  if 65 ≤ c.toNat && c.toNat ≤ 90 then Char.ofNat (c.toNat + 32) else c

/-- Rust `str::trim_start` on a character list. -/
def trimStartList (cs : List Char) : List Char := cs.dropWhile rustIsWhitespace

/-- Rust `str::trim_end` on a character list. -/
def trimEndList (cs : List Char) : List Char := (cs.reverse.dropWhile rustIsWhitespace).reverse

/-- Rust `str::trim` on a character list. -/
def rustTrimList (cs : List Char) : List Char := trimEndList (trimStartList cs)

/-- Rust `str::trim` on strings. -/
def rustTrim (s : String) : String := ⟨rustTrimList s.data⟩

/-- Rust `str::trim_matches(pat)` with a character-predicate pattern: strips matching
characters from both ends. -/
def trimMatchesList (p : Char → Bool) (cs : List Char) : List Char :=
  ((cs.dropWhile p).reverse.dropWhile p).reverse

/-- Rust `str::trim_end_matches(c)`: strips every trailing occurrence of `c`. -/
def trimEndMatchesChar (c : Char) (cs : List Char) : List Char :=
  (cs.reverse.dropWhile (· == c)).reverse

/-- Index (in characters) of the last character satisfying `p`, as in Rust `str::rfind`. -/
def rfindIdx (p : Char → Bool) (cs : List Char) : Option Nat :=
  match cs.reverse.findIdx? p with
  | some i => some (cs.length - 1 - i)
  | none => none

/-- Index of the first character satisfying `p`, as in Rust `str::find`. -/
def findIdxOpt (p : Char → Bool) (cs : List Char) : Option Nat := cs.findIdx? p

/-- ASCII upper-casing of a string. -/
def asciiUpper (s : String) : String := ⟨s.data.map asciiUpperChar⟩

/-- Total order on characters by Unicode scalar value (also Rust byte order on UTF-8). -/
def charCmpN (a b : Char) : Ordering :=
  if a.toNat < b.toNat then .lt else if b.toNat < a.toNat then .gt else .eq

/-- Lexicographic comparison of character lists; agrees with Rust `str::cmp`. -/
def charsCmp : List Char → List Char → Ordering
  | [], [] => .eq
  | [], _ :: _ => .lt
  | _ :: _, [] => .gt
  | a :: as', b :: bs' =>
    match charCmpN a b with
    | .eq => charsCmp as' bs'
    | o => o

theorem charCmpN_lt_iff {a b : Char} : charCmpN a b = .lt ↔ a.toNat < b.toNat := by
  unfold charCmpN
  by_cases h1 : a.toNat < b.toNat
  · simp [h1]
  · by_cases h2 : b.toNat < a.toNat <;> simp [h1, h2]

theorem charCmpN_gt_iff {a b : Char} : charCmpN a b = .gt ↔ b.toNat < a.toNat := by
  unfold charCmpN
  by_cases h1 : a.toNat < b.toNat
  · simp [h1]
    omega
  · by_cases h2 : b.toNat < a.toNat <;> simp [h1, h2]

theorem charCmpN_eq_iff {a b : Char} : charCmpN a b = .eq ↔ a = b := by
  constructor
  · intro h
    unfold charCmpN at h
    by_cases h1 : a.toNat < b.toNat
    · simp [h1] at h
    · by_cases h2 : b.toNat < a.toNat
      · simp [h1, h2] at h
      · refine Char.ext (UInt32.ext ?_)
        have ha : a.val.toNat = a.toNat := rfl
        have hb : b.val.toNat = b.toNat := rfl
        omega
  · rintro rfl
    unfold charCmpN
    simp

theorem charsCmp_swap (a b : List Char) : (charsCmp a b).swap = charsCmp b a := by
  induction a generalizing b with
  | nil => cases b <;> simp [charsCmp, Ordering.swap]
  | cons x xs ih =>
    cases b with
    | nil => simp [charsCmp, Ordering.swap]
    | cons y ys =>
      cases hxy : charCmpN x y
      · have hyx : charCmpN y x = .gt := by
          rw [charCmpN_gt_iff]
          exact charCmpN_lt_iff.mp hxy
        simp [charsCmp, hxy, hyx, Ordering.swap]
      · have hyx : charCmpN y x = .eq := by
          rw [charCmpN_eq_iff]
          exact (charCmpN_eq_iff.mp hxy).symm
        simp [charsCmp, hxy, hyx, ih]
      · have hyx : charCmpN y x = .lt := by
          rw [charCmpN_lt_iff]
          exact charCmpN_gt_iff.mp hxy
        simp [charsCmp, hxy, hyx, Ordering.swap]

theorem charsCmp_eq {a b : List Char} (h : charsCmp a b = .eq) : a = b := by
  induction a generalizing b with
  | nil =>
    cases b with
    | nil => rfl
    | cons y ys => simp [charsCmp] at h
  | cons x xs ih =>
    cases b with
    | nil => simp [charsCmp] at h
    | cons y ys =>
      cases hxy : charCmpN x y <;> simp [charsCmp, hxy] at h
      rw [charCmpN_eq_iff.mp hxy, ih h]

theorem charsCmp_refl (a : List Char) : charsCmp a a = .eq := by
  induction a with
  | nil => rfl
  | cons x xs ih => simp [charsCmp, charCmpN_eq_iff.mpr rfl, ih]

theorem charsCmp_lt_trans {a b c : List Char} (h1 : charsCmp a b = .lt)
    (h2 : charsCmp b c = .lt) : charsCmp a c = .lt := by
  induction a generalizing b c with
  | nil =>
    cases b with
    | nil => simp [charsCmp] at h1
    | cons y ys =>
      cases c with
      | nil => simp [charsCmp] at h2
      | cons z zs => simp [charsCmp]
  | cons x xs ih =>
    cases b with
    | nil => simp [charsCmp] at h1
    | cons y ys =>
      cases c with
      | nil => simp [charsCmp] at h2
      | cons z zs =>
        cases hxy : charCmpN x y <;> simp [charsCmp, hxy] at h1 <;>
          cases hyz : charCmpN y z <;> simp [charsCmp, hyz] at h2 <;> simp [charsCmp]
        · have hxz : charCmpN x z = .lt := by
            rw [charCmpN_lt_iff]
            exact Nat.lt_trans (charCmpN_lt_iff.mp hxy) (charCmpN_lt_iff.mp hyz)
          simp [hxz]
        · have hxz : charCmpN x z = .lt := by
            rw [← charCmpN_eq_iff.mp hyz]
            exact hxy
          simp [hxz]
        · have hxz : charCmpN x z = .lt := by
            rw [charCmpN_eq_iff.mp hxy]
            exact hyz
          simp [hxz]
        · have hxz : charCmpN x z = .eq := by
            rw [charCmpN_eq_iff.mp hxy]
            exact hyz
          simp [hxz]
          exact ih h1 h2

/-! ## Stable sorting by a three-way comparator

Rust `slice::sort_by(cmp)` is a stable sort that puts the slice in ascending
order with respect to `cmp`.  It is modelled by a stable insertion sort; the
lemmas below are proved under the lawfulness properties the concrete
comparators of this file satisfy: `cmp` agrees with its own swap, `.lt` is
transitive and `.eq` is a congruence for comparisons. -/

/-- Stable insertion of `x` into `l`: `x` is placed before the first element
that is not strictly below it. -/
def insertCmp (cmp : α → α → Ordering) (x : α) : List α → List α
  | [] => [x]
  | y :: ys => if cmp y x = .lt then y :: insertCmp cmp x ys else x :: y :: ys

/-- Stable insertion sort by a comparator; models Rust `sort_by`. -/
def sortByCmp (cmp : α → α → Ordering) : List α → List α
  | [] => []
  | x :: xs => insertCmp cmp x (sortByCmp cmp xs)

/-- Comparator lawfulness: the three properties the sort lemmas need. -/
structure LawfulCmp (cmp : α → α → Ordering) : Prop where
  swap_eq : ∀ a b, (cmp a b).swap = cmp b a
  lt_trans : ∀ {a b c}, cmp a b = .lt → cmp b c = .lt → cmp a c = .lt
  eq_congr : ∀ {a b}, cmp a b = .eq → ∀ c, cmp a c = cmp b c

theorem LawfulCmp.not_gt_of_not_lt {cmp : α → α → Ordering} (hL : LawfulCmp cmp)
    {a b : α} (h : ¬ cmp a b = .lt) : ¬ cmp b a = .gt := by
  intro hgt
  have hsw := hL.swap_eq b a
  rw [hgt] at hsw
  exact h hsw.symm

theorem LawfulCmp.eq_congr_right {cmp : α → α → Ordering} (hL : LawfulCmp cmp)
    {a b : α} (h : cmp a b = .eq) (c : α) : cmp c a = cmp c b := by
  rw [← hL.swap_eq a c, ← hL.swap_eq b c, hL.eq_congr h c]

theorem LawfulCmp.le_trans {cmp : α → α → Ordering} (hL : LawfulCmp cmp)
    {a b c : α} (h1 : cmp a b ≠ .gt) (h2 : cmp b c ≠ .gt) : cmp a c ≠ .gt := by
  cases hab : cmp a b with
  | gt => exact absurd hab h1
  | eq => rw [hL.eq_congr hab c]; exact h2
  | lt =>
    cases hbc : cmp b c with
    | gt => exact absurd hbc h2
    | eq => rw [← hL.eq_congr_right hbc a]; intro h; rw [hab] at h; cases h
    | lt => rw [hL.lt_trans hab hbc]; intro h; cases h

theorem LawfulCmp.not_lt_swap {cmp : α → α → Ordering} (hL : LawfulCmp cmp)
    {a b : α} (h : cmp a b ≠ .gt) : cmp b a ≠ .lt := by
  intro hlt
  have := hL.swap_eq b a
  rw [hlt] at this
  exact h this.symm

theorem mem_insertCmp {cmp : α → α → Ordering} {x a : α} {l : List α} :
    a ∈ insertCmp cmp x l ↔ a = x ∨ a ∈ l := by
  induction l with
  | nil => simp [insertCmp]
  | cons y ys ih =>
    simp only [insertCmp]
    split
    · rw [List.mem_cons, ih, List.mem_cons]
      tauto
    · simp [List.mem_cons]

theorem mem_sortByCmp {cmp : α → α → Ordering} {a : α} {l : List α} :
    a ∈ sortByCmp cmp l ↔ a ∈ l := by
  induction l with
  | nil => simp [sortByCmp]
  | cons x xs ih => simp [sortByCmp, mem_insertCmp, ih]

theorem pairwise_insertCmp {cmp : α → α → Ordering} (hL : LawfulCmp cmp) {x : α} {l : List α}
    (hs : l.Pairwise (fun a b => cmp a b ≠ .gt)) :
    (insertCmp cmp x l).Pairwise (fun a b => cmp a b ≠ .gt) := by
  induction l with
  | nil => simp [insertCmp]
  | cons y ys ih =>
    rcases List.pairwise_cons.mp hs with ⟨hy, hys⟩
    simp only [insertCmp]
    split
    · rename_i hlt
      refine List.pairwise_cons.mpr ⟨?_, ih hys⟩
      intro a ha
      rcases mem_insertCmp.mp ha with rfl | ha
      · rw [hlt]; intro h; cases h
      · exact hy a ha
    · rename_i hnlt
      refine List.pairwise_cons.mpr ⟨?_, hs⟩
      intro a ha
      have hxy : cmp x y ≠ .gt := hL.not_gt_of_not_lt hnlt
      rcases List.mem_cons.mp ha with rfl | ha
      · exact hxy
      · exact hL.le_trans hxy (hy a ha)

theorem pairwise_sortByCmp {cmp : α → α → Ordering} (hL : LawfulCmp cmp) (l : List α) :
    (sortByCmp cmp l).Pairwise (fun a b => cmp a b ≠ .gt) := by
  induction l with
  | nil => simp [sortByCmp]
  | cons x xs ih => exact pairwise_insertCmp hL ih

theorem sortByCmp_eq_self {cmp : α → α → Ordering} (hL : LawfulCmp cmp) {l : List α}
    (hs : l.Pairwise (fun a b => cmp a b ≠ .gt)) : sortByCmp cmp l = l := by
  induction l with
  | nil => rfl
  | cons x xs ih =>
    rcases List.pairwise_cons.mp hs with ⟨hx, hxs⟩
    simp only [sortByCmp, ih hxs]
    cases xs with
    | nil => rfl
    | cons y ys =>
      simp only [insertCmp]
      rw [if_neg (hL.not_lt_swap (hx y (by simp)))]

theorem insertCmp_all_not_lt {cmp : α → α → Ordering} {x : α} {l : List α}
    (h : ∀ z ∈ l, cmp z x ≠ .lt) : insertCmp cmp x l = x :: l := by
  cases l with
  | nil => rfl
  | cons y ys =>
    simp only [insertCmp]
    rw [if_neg (h y (by simp))]

theorem filter_insertCmp {cmp : α → α → Ordering} (hL : LawfulCmp cmp) (p : α → Bool)
    {x : α} {l : List α} (hs : l.Pairwise (fun a b => cmp a b ≠ .gt)) :
    (insertCmp cmp x l).filter p =
      if p x then insertCmp cmp x (l.filter p) else l.filter p := by
  induction l with
  | nil => cases hpx : p x <;> simp [insertCmp, List.filter, hpx]
  | cons y ys ih =>
    rcases List.pairwise_cons.mp hs with ⟨hy, hys⟩
    simp only [insertCmp]
    split
    · rename_i hlt
      cases hpy : p y
      · cases hpx : p x <;>
          simp only [List.filter, hpy, hpx, ih hys, if_true, if_false, cond_true, cond_false]
      · cases hpx : p x <;>
          simp [List.filter, hpy, hpx, ih hys, insertCmp, hlt]
    · rename_i hnlt
      cases hpy : p y
      · cases hpx : p x
        · simp [List.filter, hpy, hpx]
        · simp only [List.filter, hpy, hpx, if_true, cond_true, cond_false]
          rw [insertCmp_all_not_lt]
          intro z hz
          rcases List.mem_filter.mp hz with ⟨hzys, _⟩
          have hyz : cmp y z ≠ .gt := hy z hzys
          have hxy : cmp x y ≠ .gt := hL.not_gt_of_not_lt hnlt
          exact hL.not_lt_swap (hL.le_trans hxy hyz)
      · cases hpx : p x <;> simp [List.filter, hpy, hpx, insertCmp, hnlt]

theorem filter_sortByCmp {cmp : α → α → Ordering} (hL : LawfulCmp cmp) (p : α → Bool)
    (l : List α) : (sortByCmp cmp l).filter p = sortByCmp cmp (l.filter p) := by
  induction l with
  | nil => rfl
  | cons x xs ih =>
    simp only [sortByCmp]
    rw [filter_insertCmp hL p (pairwise_sortByCmp hL xs)]
    cases hpx : p x
    · simp [List.filter, hpx, ih]
    · simp [List.filter, hpx, sortByCmp, ih]

/-! ## Decimal digits -/

/-- The ASCII digit character for `d` (meaningful for `d ≤ 9`). -/
def digitChar (d : Nat) : Char := Char.ofNat (48 + d)

/-- Zero-padded fixed-width decimal rendering, most significant digit first. -/
def padNum : Nat → Nat → List Char
  | 0, _ => []
  | k + 1, n => digitChar (n / 10 ^ k) :: padNum k (n % 10 ^ k)

theorem digitChar_isDigit {d : Nat} (h : d ≤ 9) : isAsciiDigitChar (digitChar d) = true := by
  interval_cases d <;> decide

theorem digitChar_toNat {d : Nat} (h : d ≤ 9) : (digitChar d).toNat = 48 + d := by
  interval_cases d <;> decide

theorem le9_of_digitChar_isDigit {d : Nat} (h : isAsciiDigitChar (digitChar d) = true) :
    d ≤ 9 := by
  by_contra hd
  unfold digitChar Char.ofNat at h
  split at h
  · rename_i hv
    have ht : (Char.ofNatAux (48 + d) hv).toNat = 48 + d := by
      simp [Char.ofNatAux, UInt32.toNat, Char.toNat]
    unfold isAsciiDigitChar at h
    rw [ht] at h
    simp at h
    omega
  · exact absurd h (by decide)

/-! ## Proleptic-Gregorian calendar (UTC), as used by chrono

`marchDays sy` is the day count (relative to 0000-03-01) of 1 March of the
"shifted" year `sy` (a shifted year runs March..February, so every leap day is
its last day).  `daysFromCivil`/`daysToCivil` convert between days since the
Unix epoch (1970-01-01) and civil `(year, month, day)` triples; they compute
the standard civil-from-days / days-from-civil functions, which is what
chrono's `NaiveDate` field accessors and constructors implement. -/

/-- Day count of 1 March of shifted year `sy`, relative to 0000-03-01. -/
def marchDays (sy : Int) : Int := 365 * sy + sy / 4 - sy / 100 + sy / 400

/-- Shifted (March-based) year containing day `z'` (days since 0000-03-01). -/
def shiftedYearOf (z' : Int) : Int :=
  if z' < marchDays (400 * z' / 146097 + 1) then 400 * z' / 146097
  else 400 * z' / 146097 + 1

/-- Days since the Unix epoch of the civil date `(y, mo, d)`. -/
def daysFromCivil (y mo d : Int) : Int :=
  marchDays (y - (if mo ≤ 2 then 1 else 0)) +
    (153 * (mo + (if mo > 2 then -3 else 9)) + 2) / 5 + d - 1 - 719468

/-- Civil date `(y, mo, d)` of a days-since-epoch count. -/
def daysToCivil (z : Int) : Int × Int × Int :=
  let sy := shiftedYearOf (z + 719468)
  let doy := z + 719468 - marchDays sy
  let mp := (5 * doy + 2) / 153
  let d := doy - (153 * mp + 2) / 5 + 1
  let m := mp + (if mp < 10 then 3 else -9)
  (sy + (if m ≤ 2 then 1 else 0), m, d)

/-- Gregorian leap-year predicate. -/
def isLeapYear (y : Int) : Bool := y % 4 == 0 && (y % 100 != 0 || y % 400 == 0)

/-- Length of month `mo` of year `y`. -/
def daysInMonth (y mo : Int) : Int :=
  if mo == 2 then (if isLeapYear y then 29 else 28)
  else if mo == 4 || mo == 6 || mo == 9 || mo == 11 then 30
  else 31

theorem shiftedYearOf_spec (z' : Int) :
    marchDays (shiftedYearOf z') ≤ z' ∧ z' < marchDays (shiftedYearOf z' + 1) := by
  unfold shiftedYearOf marchDays
  split <;> omega

theorem marchDays_mono {a b : Int} (hab : a ≤ b) : marchDays a ≤ marchDays b := by
  unfold marchDays
  have h4 : a / 4 ≤ b / 4 := by omega
  have h100 : b / 100 ≤ a / 100 + (b - a) := by omega
  omega

theorem marchDays_succ (sy : Int) :
    marchDays (sy + 1) =
      marchDays sy + 365 + (if isLeapYear (sy + 1) = true then 1 else 0) := by
  unfold marchDays isLeapYear
  split <;> rename_i hleap <;> simp only [Bool.and_eq_true, beq_iff_eq, Bool.or_eq_true,
    bne_iff_ne, ne_eq, decide_eq_true_eq] at hleap <;> omega

/-! ## chrono timestamps

A `chrono::DateTime` instant is modelled as total nanoseconds since the Unix
epoch.  Civil field extraction uses floor division, matching chrono's
proleptic-Gregorian UTC calendar. -/

/-- Civil UTC date-time fields of an instant. -/
structure CivilDateTime where
  year : Int
  month : Int
  day : Int
  hour : Int
  minute : Int
  second : Int
  nano : Int
deriving DecidableEq

/-- Civil UTC fields of a nanosecond instant (chrono field accessors). -/
def civilOfNanos (n : Int) : CivilDateTime :=
  let nano := n % 1000000000
  let secs := n / 1000000000
  let days := secs / 86400
  let sod := secs % 86400
  let c := daysToCivil days
  { year := c.1, month := c.2.1, day := c.2.2,
    hour := sod / 3600, minute := sod / 60 % 60, second := sod % 60, nano := nano }

/-! ## RFC3339 parsing (`chrono::DateTime::parse_from_rfc3339`)

The parser accepts `YYYY-MM-DDTHH:MM:SS[.fff...](Z|±HH:MM)` with `T`, `t` or a
space as separator, validates field ranges (including day-of-month against the
month length), and returns the instant in nanoseconds since the epoch.  Leap
seconds (`:60`) are not modelled; no input in this development uses them. -/

/-- Read exactly `k` ASCII digits, most significant first, extending `acc`. -/
def readDigitsAux : Nat → Nat → List Char → Option (Nat × List Char)
  | 0, acc, cs => some (acc, cs)
  | k + 1, acc, cs =>
    match cs with
    | [] => none
    | c :: rest =>
      if isAsciiDigitChar c then readDigitsAux k (acc * 10 + (c.toNat - 48)) rest else none

/-- Read exactly `k` ASCII digits as a number. -/
def readExactDigits (k : Nat) (cs : List Char) : Option (Nat × List Char) :=
  readDigitsAux k 0 cs

/-- Require the next character to be `c`. -/
def expectChar (c : Char) : List Char → Option (List Char)
  | x :: rest => if x == c then some rest else none
  | [] => none

/-- Nanosecond value of a fraction-digit run (first nine digits significant). -/
def fracValue (ds : List Char) : Int :=
  (((ds.take 9).foldl (fun acc c => acc * 10 + (c.toNat - 48)) 0) *
    10 ^ (9 - (ds.take 9).length) : Nat)

/-- Optional fractional-second part: a dot followed by at least one digit. -/
def readFrac : List Char → Option (Int × List Char)
  | '.' :: rest =>
    let ds := rest.takeWhile isAsciiDigitChar
    if ds.isEmpty then none else some (fracValue ds, rest.dropWhile isAsciiDigitChar)
  | cs => some (0, cs)

/-- Offset part: `Z`/`z`, or a signed `HH:MM`; value in minutes. -/
def readOffsetMin : List Char → Option (Int × List Char)
  | [] => none
  | c :: rest =>
    if c == 'Z' || c == 'z' then some (0, rest)
    else if c == '+' || c == '-' then
      match readExactDigits 2 rest with
      | some (oh, cs1) =>
        match expectChar ':' cs1 with
        | some cs2 =>
          match readExactDigits 2 cs2 with
          | some (om, cs3) =>
            if oh ≤ 23 ∧ om ≤ 59 then
              some (if c == '-' then -((oh : Int) * 60 + om) else ((oh : Int) * 60 + om), cs3)
            else none
          | none => none
        | none => none
      | none => none
    else none

/-- Date-time separator accepted by chrono. -/
def sepOk (c : Char) : Bool := c == 'T' || c == 't' || c == ' '

/-- Read the `YYYY-MM-DD` date part followed by a separator. -/
def readDatePart (cs : List Char) : Option (Nat × Nat × Nat × List Char) := do
  let (y, cs) ← readExactDigits 4 cs
  let cs ← expectChar '-' cs
  let (mo, cs) ← readExactDigits 2 cs
  let cs ← expectChar '-' cs
  let (d, cs) ← readExactDigits 2 cs
  let cs ← match cs with
    | c :: rest => if sepOk c then some rest else none
    | [] => none
  some (y, mo, d, cs)

/-- Read the `HH:MM:SS` time part. -/
def readTimePart (cs : List Char) : Option (Nat × Nat × Nat × List Char) := do
  let (h, cs) ← readExactDigits 2 cs
  let cs ← expectChar ':' cs
  let (mi, cs) ← readExactDigits 2 cs
  let cs ← expectChar ':' cs
  let (ss, cs) ← readExactDigits 2 cs
  some (h, mi, ss, cs)

/-- Range validation and nanosecond value of the parsed fields. -/
def assembleRFC3339 (y mo d h mi ss : Nat) (frac offMin : Int) (cs : List Char) :
    Option Int :=
  if cs = [] ∧ 1 ≤ mo ∧ mo ≤ 12 ∧ 1 ≤ d ∧ (d : Int) ≤ daysInMonth y mo ∧
      h ≤ 23 ∧ mi ≤ 59 ∧ ss ≤ 59 then
    some ((daysFromCivil y mo d * 86400 + (h : Int) * 3600 + (mi : Int) * 60 + ss -
      offMin * 60) * 1000000000 + frac)
  else none

/-- RFC3339 parser on a character list; instant in nanoseconds since the epoch. -/
def parseCharsRFC3339 (cs : List Char) : Option Int := do
  let (y, mo, d, cs) ← readDatePart cs
  let (h, mi, ss, cs) ← readTimePart cs
  let (frac, cs) ← readFrac cs
  let (offMin, cs) ← readOffsetMin cs
  assembleRFC3339 y mo d h mi ss frac offMin cs

/-- RFC3339 parser on strings. -/
def parseRFC3339Nanos (s : String) : Option Int := parseCharsRFC3339 s.data

/-! ## RFC3339 formatting (`chrono::DateTime<Utc>::to_rfc3339`)

For a whole-second UTC instant chrono renders `YYYY-MM-DDTHH:MM:SS+00:00`.
chrono formats years outside 0..9999 with an explicit sign; such strings do
not re-parse as RFC3339, and every theorem below depends only on outputs that
re-parse, so the model clamps the fields with `toNat`. -/

/-- Fixed-width RFC3339 UTC rendering of whole-second civil fields. -/
def formatCivilN (y mo d h mi ss : Nat) : List Char :=
  padNum 4 y ++ '-' :: (padNum 2 mo ++ '-' :: (padNum 2 d ++ 'T' ::
    (padNum 2 h ++ ':' :: (padNum 2 mi ++ ':' :: (padNum 2 ss ++
      ('+' :: '0' :: '0' :: ':' :: '0' :: '0' :: []))))))

/-- chrono `to_rfc3339` of a whole-second UTC civil date-time (`nano = 0`). -/
def formatRfc3339WholeSec (c : CivilDateTime) : String :=
  ⟨formatCivilN c.year.toNat c.month.toNat c.day.toNat c.hour.toNat c.minute.toNat
    c.second.toNat⟩

/-! ## Reading back fixed-width decimal renderings -/

theorem readDigitsAux_padNum {k : Nat} :
    ∀ {n : Nat}, n < 10 ^ k → ∀ (acc : Nat) (rest : List Char),
      readDigitsAux k acc (padNum k n ++ rest) = some (acc * 10 ^ k + n, rest) := by
  induction k with
  | zero =>
    intro n hn acc rest
    interval_cases n
    simp [padNum, readDigitsAux]
  | succ k ih =>
    intro n hn acc rest
    have hpow : 0 < 10 ^ k := Nat.pos_pow_of_pos k (by omega)
    have h1 : 10 ^ (k + 1) = 10 * 10 ^ k := by ring
    have htop : n / 10 ^ k ≤ 9 := by
      have h9 : n / 10 ^ k < 10 := Nat.div_lt_of_lt_mul (by omega : n < 10 ^ k * 10)
      omega
    simp only [padNum, List.cons_append, readDigitsAux, digitChar_isDigit htop, if_true,
      digitChar_toNat htop]
    have hmod : n % 10 ^ k < 10 ^ k := Nat.mod_lt _ hpow
    rw [ih hmod]
    rw [Nat.add_sub_cancel_left]
    have h2 : 10 ^ k * (n / 10 ^ k) + n % 10 ^ k = n := Nat.div_add_mod n (10 ^ k)
    congr 2
    calc (acc * 10 + n / 10 ^ k) * 10 ^ k + n % 10 ^ k
        = acc * (10 * 10 ^ k) + (10 ^ k * (n / 10 ^ k) + n % 10 ^ k) := by ring
    _ = acc * 10 ^ (k + 1) + n := by rw [h2, h1]

theorem padNum_bound_of_read {k : Nat} {n acc : Nat} {rest : List Char}
    {p : Nat × List Char}
    (h : readDigitsAux (k + 1) acc (padNum (k + 1) n ++ rest) = some p) :
    n < 10 ^ (k + 1) := by
  simp only [padNum, List.cons_append, readDigitsAux] at h
  split at h
  · rename_i hdig
    have htop := le9_of_digitChar_isDigit hdig
    have hpow : 0 < 10 ^ k := Nat.pos_pow_of_pos k (by omega)
    have h1 : 10 ^ (k + 1) = 10 * 10 ^ k := by ring
    have h2 : 10 ^ k * (n / 10 ^ k) + n % 10 ^ k = n := Nat.div_add_mod n (10 ^ k)
    have hmod : n % 10 ^ k < 10 ^ k := Nat.mod_lt _ hpow
    have hlt : n < 10 ^ k * 10 := by
      calc n = 10 ^ k * (n / 10 ^ k) + n % 10 ^ k := h2.symm
      _ < 10 ^ k * (n / 10 ^ k) + 10 ^ k := by omega
      _ = 10 ^ k * (n / 10 ^ k + 1) := by ring
      _ ≤ 10 ^ k * 10 := Nat.mul_le_mul_left _ (by omega)
    omega
  · cases h

theorem readExactDigits_padNum_inv {k : Nat} {n : Nat} {rest : List Char}
    {p : Nat × List Char}
    (h : readExactDigits (k + 1) (padNum (k + 1) n ++ rest) = some p) :
    n < 10 ^ (k + 1) ∧ p = (n, rest) := by
  have hb := padNum_bound_of_read h
  refine ⟨hb, ?_⟩
  unfold readExactDigits at h
  rw [readDigitsAux_padNum hb 0 rest] at h
  rw [← Option.some.inj h]
  simp

theorem charsCmp_cons_same (c : Char) (r1 r2 : List Char) :
    charsCmp (c :: r1) (c :: r2) = charsCmp r1 r2 := by
  simp [charsCmp, charCmpN_eq_iff.mpr rfl]

theorem charsCmp_append_padNum {k : Nat} :
    ∀ {a b : Nat}, a < 10 ^ k → b < 10 ^ k → ∀ (r1 r2 : List Char),
      charsCmp (padNum k a ++ r1) (padNum k b ++ r2) =
        if a < b then .lt else if b < a then .gt else charsCmp r1 r2 := by
  induction k with
  | zero =>
    intro a b ha hb r1 r2
    interval_cases a
    interval_cases b
    simp [padNum]
  | succ k ih =>
    intro a b ha hb r1 r2
    have h1 : 10 ^ (k + 1) = 10 * 10 ^ k := by ring
    have hpow : 0 < 10 ^ k := Nat.pos_pow_of_pos k (by omega)
    have hda : a / 10 ^ k ≤ 9 := by
      have h9 : a / 10 ^ k < 10 := Nat.div_lt_of_lt_mul (by omega : a < 10 ^ k * 10)
      omega
    have hdb : b / 10 ^ k ≤ 9 := by
      have h9 : b / 10 ^ k < 10 := Nat.div_lt_of_lt_mul (by omega : b < 10 ^ k * 10)
      omega
    have hma : a % 10 ^ k < 10 ^ k := Nat.mod_lt _ hpow
    have hmb : b % 10 ^ k < 10 ^ k := Nat.mod_lt _ hpow
    have hae : 10 ^ k * (a / 10 ^ k) + a % 10 ^ k = a := Nat.div_add_mod a (10 ^ k)
    have hbe : 10 ^ k * (b / 10 ^ k) + b % 10 ^ k = b := Nat.div_add_mod b (10 ^ k)
    have hkey : ∀ x y : Nat, x / 10 ^ k < y / 10 ^ k → x % 10 ^ k < 10 ^ k → x < y := by
      intro x y hxy hmx
      calc x = 10 ^ k * (x / 10 ^ k) + x % 10 ^ k := (Nat.div_add_mod x (10 ^ k)).symm
      _ < 10 ^ k * (x / 10 ^ k) + 10 ^ k := by omega
      _ = 10 ^ k * (x / 10 ^ k + 1) := by ring
      _ ≤ 10 ^ k * (y / 10 ^ k) := Nat.mul_le_mul_left _ (by omega)
      _ ≤ 10 ^ k * (y / 10 ^ k) + y % 10 ^ k := by omega
      _ = y := Nat.div_add_mod y (10 ^ k)
    simp only [padNum, List.cons_append, charsCmp]
    rcases Nat.lt_trichotomy (a / 10 ^ k) (b / 10 ^ k) with hdiv | hdiv | hdiv
    · have hc : charCmpN (digitChar (a / 10 ^ k)) (digitChar (b / 10 ^ k)) = .lt := by
        rw [charCmpN_lt_iff, digitChar_toNat hda, digitChar_toNat hdb]
        omega
      simp only [hc]
      have hab : a < b := hkey a b hdiv hma
      simp [hab]
    · have hc : charCmpN (digitChar (a / 10 ^ k)) (digitChar (b / 10 ^ k)) = .eq := by
        rw [charCmpN_eq_iff, hdiv]
      simp only [hc, ih hma hmb r1 r2]
      rw [hdiv] at hae
      have hiff : a < b ↔ a % 10 ^ k < b % 10 ^ k := by
        constructor
        · intro hcon
          have hsum : 10 ^ k * (b / 10 ^ k) + a % 10 ^ k <
              10 ^ k * (b / 10 ^ k) + b % 10 ^ k := by
            rw [hae, hbe]
            exact hcon
          exact Nat.lt_of_add_lt_add_left hsum
        · intro hmods
          calc a = 10 ^ k * (b / 10 ^ k) + a % 10 ^ k := hae.symm
          _ < 10 ^ k * (b / 10 ^ k) + b % 10 ^ k := Nat.add_lt_add_left hmods _
          _ = b := hbe
      have hiff2 : b < a ↔ b % 10 ^ k < a % 10 ^ k := by
        constructor
        · intro hcon
          have hsum : 10 ^ k * (b / 10 ^ k) + b % 10 ^ k <
              10 ^ k * (b / 10 ^ k) + a % 10 ^ k := by
            rw [hae, hbe]
            exact hcon
          exact Nat.lt_of_add_lt_add_left hsum
        · intro hmods
          calc b = 10 ^ k * (b / 10 ^ k) + b % 10 ^ k := hbe.symm
          _ < 10 ^ k * (b / 10 ^ k) + a % 10 ^ k := Nat.add_lt_add_left hmods _
          _ = a := hae
      by_cases hlt : a % 10 ^ k < b % 10 ^ k
      · simp [ih hma hmb r1 r2, hlt, hiff.mpr hlt]
      · by_cases hgt : b % 10 ^ k < a % 10 ^ k
        · have h2 : ¬ a < b := fun hcon => hlt (hiff.mp hcon)
          have h3 : b < a := hiff2.mpr hgt
          simp [ih hma hmb r1 r2, hlt, hgt, h2, h3]
        · have h2 : ¬ a < b := fun hcon => hlt (hiff.mp hcon)
          have h3 : ¬ b < a := fun hcon => hgt (hiff2.mp hcon)
          simp [ih hma hmb r1 r2, hlt, hgt, h2, h3]
    · have hc : charCmpN (digitChar (a / 10 ^ k)) (digitChar (b / 10 ^ k)) = .gt := by
        rw [charCmpN_gt_iff, digitChar_toNat hda, digitChar_toNat hdb]
        omega
      simp only [hc]
      have hba : b < a := hkey b a hdiv hmb
      have hab : ¬ a < b := by omega
      simp [hab, hba]

/-! ## Inversion of the parser on formatted output -/

theorem readDatePart_inv {y mo d : Nat} {R : List Char} {q : Nat × Nat × Nat × List Char}
    (hq : readDatePart
      (padNum 4 y ++ '-' :: (padNum 2 mo ++ '-' :: (padNum 2 d ++ 'T' :: R))) = some q) :
    y ≤ 9999 ∧ mo ≤ 99 ∧ d ≤ 99 ∧ q = (y, mo, d, R) := by
  unfold readDatePart at hq
  cases hy : readExactDigits 4 (padNum 4 y ++ '-' :: (padNum 2 mo ++ '-' :: (padNum 2 d ++ 'T' :: R))) with
  | none => simp [hy] at hq
  | some p =>
    obtain ⟨y1, cs1⟩ := p
    obtain ⟨hyb, hye⟩ := readExactDigits_padNum_inv hy
    cases hye
    rw [hy] at hq
    simp only [Option.pure_def, Option.bind_eq_bind, Option.some_bind, expectChar, beq_self_eq_true, if_true] at hq
    cases hmo : readExactDigits 2 (padNum 2 mo ++ '-' :: (padNum 2 d ++ 'T' :: R)) with
    | none => simp [hmo] at hq
    | some p2 =>
      obtain ⟨mo1, cs2⟩ := p2
      obtain ⟨hmob, hmoe⟩ := readExactDigits_padNum_inv hmo
      cases hmoe
      rw [hmo] at hq
      simp only [Option.pure_def, Option.bind_eq_bind, Option.some_bind, expectChar, beq_self_eq_true, if_true] at hq
      cases hd : readExactDigits 2 (padNum 2 d ++ 'T' :: R) with
      | none => simp [hd] at hq
      | some p3 =>
        obtain ⟨d1, cs3⟩ := p3
        obtain ⟨hdb, hde⟩ := readExactDigits_padNum_inv hd
        cases hde
        rw [hd] at hq
        simp only [Option.pure_def, Option.bind_eq_bind, Option.some_bind, sepOk] at hq
        norm_num at hq
        norm_num at hyb hmob hdb
        exact ⟨by omega, by omega, by omega, hq.symm⟩

theorem readTimePart_inv {h mi ss : Nat} {R : List Char} {q : Nat × Nat × Nat × List Char}
    (hq : readTimePart (padNum 2 h ++ ':' :: (padNum 2 mi ++ ':' :: (padNum 2 ss ++ R))) =
      some q) :
    h ≤ 99 ∧ mi ≤ 99 ∧ ss ≤ 99 ∧ q = (h, mi, ss, R) := by
  unfold readTimePart at hq
  cases hh : readExactDigits 2 (padNum 2 h ++ ':' :: (padNum 2 mi ++ ':' :: (padNum 2 ss ++ R))) with
  | none => simp [hh] at hq
  | some p =>
    obtain ⟨h1, cs1⟩ := p
    obtain ⟨hhb, hhe⟩ := readExactDigits_padNum_inv hh
    cases hhe
    rw [hh] at hq
    simp only [Option.pure_def, Option.bind_eq_bind, Option.some_bind, expectChar,
      beq_self_eq_true, if_true] at hq
    cases hmi : readExactDigits 2 (padNum 2 mi ++ ':' :: (padNum 2 ss ++ R)) with
    | none => simp [hmi] at hq
    | some p2 =>
      obtain ⟨mi1, cs2⟩ := p2
      obtain ⟨hmib, hmie⟩ := readExactDigits_padNum_inv hmi
      cases hmie
      rw [hmi] at hq
      simp only [Option.pure_def, Option.bind_eq_bind, Option.some_bind, expectChar,
        beq_self_eq_true, if_true] at hq
      cases hss : readExactDigits 2 (padNum 2 ss ++ R) with
      | none => simp [hss] at hq
      | some p3 =>
        obtain ⟨ss1, cs3⟩ := p3
        obtain ⟨hssb, hsse⟩ := readExactDigits_padNum_inv hss
        cases hsse
        rw [hss] at hq
        simp only [Option.pure_def, Option.bind_eq_bind, Option.some_bind] at hq
        norm_num at hhb hmib hssb
        exact ⟨by omega, by omega, by omega, (Option.some.inj hq).symm⟩

theorem parse_formatCivilN_inv {y mo d h mi ss : Nat} {v : Int}
    (hp : parseCharsRFC3339 (formatCivilN y mo d h mi ss) = some v) :
    y ≤ 9999 ∧ 1 ≤ mo ∧ mo ≤ 12 ∧ 1 ≤ d ∧ (d : Int) ≤ daysInMonth (y : Int) (mo : Int) ∧
      h ≤ 23 ∧ mi ≤ 59 ∧ ss ≤ 59 ∧
      v = (daysFromCivil y mo d * 86400 + (h : Int) * 3600 + (mi : Int) * 60 + (ss : Int)) *
        1000000000 := by
  unfold parseCharsRFC3339 formatCivilN at hp
  cases hdate : readDatePart (padNum 4 y ++ '-' :: (padNum 2 mo ++ '-' :: (padNum 2 d ++ 'T' ::
      (padNum 2 h ++ ':' :: (padNum 2 mi ++ ':' :: (padNum 2 ss ++
        ('+' :: '0' :: '0' :: ':' :: '0' :: '0' :: []))))))) with
  | none => simp [hdate] at hp
  | some pd =>
    obtain ⟨y1, mo1, d1, csd⟩ := pd
    obtain ⟨hy, hmo, hd, hqd⟩ := readDatePart_inv hdate
    cases hqd
    rw [hdate] at hp
    simp only [Option.pure_def, Option.bind_eq_bind, Option.some_bind] at hp
    cases htime : readTimePart (padNum 2 h ++ ':' :: (padNum 2 mi ++ ':' :: (padNum 2 ss ++
        ('+' :: '0' :: '0' :: ':' :: '0' :: '0' :: [])))) with
    | none => simp [htime] at hp
    | some pt =>
      obtain ⟨h2, mi2, ss2, cst⟩ := pt
      obtain ⟨hhb, hmib, hssb, hqt⟩ := readTimePart_inv htime
      cases hqt
      rw [htime] at hp
      simp only [Option.pure_def, Option.bind_eq_bind, Option.some_bind] at hp
      have hfrac : readFrac ('+' :: '0' :: '0' :: ':' :: '0' :: '0' :: []) =
          some (0, '+' :: '0' :: '0' :: ':' :: '0' :: '0' :: []) := rfl
      have hoff : readOffsetMin ('+' :: '0' :: '0' :: ':' :: '0' :: '0' :: []) =
          some (0, ([] : List Char)) := by decide
      rw [hfrac] at hp
      simp only [Option.some_bind] at hp
      rw [hoff] at hp
      simp only [Option.some_bind] at hp
      unfold assembleRFC3339 at hp
      split at hp
      · rename_i hcond
        obtain ⟨-, hmo1, hmo2, hd1, hd2, hhv, hmiv, hssv⟩ := hcond
        refine ⟨by omega, hmo1, hmo2, hd1, hd2, hhv, hmiv, hssv, ?_⟩
        have hv := Option.some.inj hp
        rw [← hv]
        push_cast
        ring
      · cases hp

theorem daysInMonth_char (y mo : Int) :
    daysInMonth y mo =
      if mo = 2 then 28 + (if y % 4 = 0 ∧ (y % 100 ≠ 0 ∨ y % 400 = 0) then 1 else 0)
      else if mo = 4 ∨ mo = 6 ∨ mo = 9 ∨ mo = 11 then 30 else 31 := by
  unfold daysInMonth isLeapYear
  by_cases h2 : mo = 2
  · simp only [h2, if_pos, beq_self_eq_true, if_true]
    by_cases hl : y % 4 = 0 ∧ (y % 100 ≠ 0 ∨ y % 400 = 0)
    · have hb : (y % 4 == 0 && (y % 100 != 0 || y % 400 == 0)) = true := by
        obtain ⟨ha, hbb⟩ := hl
        rcases hbb with hc | hc <;> simp [ha, hc]
      simp only [hb, if_true]
      split_ifs <;> omega
    · have hb : (y % 4 == 0 && (y % 100 != 0 || y % 400 == 0)) = false := by
        rcases Decidable.em (y % 4 = 0) with ha | ha
        · rcases Decidable.em (y % 100 = 0) with hc | hc
          · rcases Decidable.em (y % 400 = 0) with he | he
            · exact absurd ⟨ha, Or.inr he⟩ hl
            · simp [ha, hc, he]
          · exact absurd ⟨ha, Or.inl hc⟩ hl
        · simp [ha]
      simp only [hb, Bool.false_eq_true, if_false]
      split_ifs <;> omega
  · have hb2 : (mo == 2) = false := by simp [h2]
    simp only [hb2, if_false, Bool.false_eq_true]
    by_cases h30 : mo = 4 ∨ mo = 6 ∨ mo = 9 ∨ mo = 11
    · have hb : (mo == 4 || mo == 6 || mo == 9 || mo == 11) = true := by
        rcases h30 with h | h | h | h <;> simp [h]
      simp only [hb, if_true]
      rw [if_neg h2, if_pos h30]
    · have hb : (mo == 4 || mo == 6 || mo == 9 || mo == 11) = false := by
        push_neg at h30
        obtain ⟨ha, hbq, hc, hd⟩ := h30
        simp [ha, hbq, hc, hd]
      simp only [hb, Bool.false_eq_true, if_false]
      rw [if_neg h2, if_neg h30]

set_option maxHeartbeats 1000000 in
theorem civil_shifted_facts {y mo d : Int} (hmo1 : 1 ≤ mo) (hmo2 : mo ≤ 12)
    (hd1 : 1 ≤ d) (hd2 : d ≤ daysInMonth y mo) :
    0 ≤ mo + (if mo > 2 then -3 else 9) ∧ mo + (if mo > 2 then -3 else 9) ≤ 11 ∧
      (mo + (if mo > 2 then -3 else 9) ≤ 10 →
        (153 * (mo + (if mo > 2 then -3 else 9)) + 2) / 5 + d ≤
          (153 * ((mo + (if mo > 2 then -3 else 9)) + 1) + 2) / 5) ∧
      (153 * (mo + (if mo > 2 then -3 else 9)) + 2) / 5 + d - 1 ≤
        364 + (if (y - (if mo ≤ 2 then 1 else 0) + 1) % 4 = 0 ∧
          ((y - (if mo ≤ 2 then 1 else 0) + 1) % 100 ≠ 0 ∨
            (y - (if mo ≤ 2 then 1 else 0) + 1) % 400 = 0) then 1 else 0) := by
  rw [daysInMonth_char] at hd2
  interval_cases mo <;> split_ifs at * <;> omega

theorem marchDays_succ_mod (sy : Int) :
    marchDays (sy + 1) = marchDays sy + 365 +
      (if (sy + 1) % 4 = 0 ∧ ((sy + 1) % 100 ≠ 0 ∨ (sy + 1) % 400 = 0) then 1 else 0) := by
  unfold marchDays
  split_ifs <;> omega

set_option maxHeartbeats 1000000 in
set_option linter.unusedVariables false in
theorem daysFromCivil_lt_of_lex {y1 mo1 d1 y2 mo2 d2 : Int}
    (h1a : 1 ≤ mo1) (h1b : mo1 ≤ 12) (h1c : 1 ≤ d1) (h1d : d1 ≤ daysInMonth y1 mo1)
    (h2a : 1 ≤ mo2) (h2b : mo2 ≤ 12) (h2c : 1 ≤ d2) (h2d : d2 ≤ daysInMonth y2 mo2)
    (hlex : y1 < y2 ∨ (y1 = y2 ∧ (mo1 < mo2 ∨ (mo1 = mo2 ∧ d1 < d2)))) :
    daysFromCivil y1 mo1 d1 < daysFromCivil y2 mo2 d2 := by
  obtain ⟨hp1, hq1, hg1, hb1⟩ := civil_shifted_facts h1a h1b h1c h1d
  obtain ⟨hp2, hq2, hg2, hb2⟩ := civil_shifted_facts h2a h2b h2c h2d
  unfold daysFromCivil marchDays
  set sy1 := y1 - (if mo1 ≤ 2 then (1 : Int) else 0) with hsy1
  set sy2 := y2 - (if mo2 ≤ 2 then (1 : Int) else 0) with hsy2
  set mp1 := mo1 + (if mo1 > 2 then (-3 : Int) else 9) with hmp1
  set mp2 := mo2 + (if mo2 > 2 then (-3 : Int) else 9) with hmp2
  have hshift : sy1 < sy2 ∨ (sy1 = sy2 ∧ (mp1 < mp2 ∨ (mp1 = mp2 ∧ d1 < d2))) := by
    rw [hsy1, hsy2, hmp1, hmp2]
    split_ifs <;> omega
  rcases hshift with hlt | ⟨hseq, hrest⟩
  · clear hg1 hg2 hb2 hsy1 hsy2 hmp1 hmp2 hlex h1d h2d
    have hstep : marchDays (sy1 + 1) ≤ marchDays sy2 := marchDays_mono (by omega)
    have hsucc := marchDays_succ_mod sy1
    unfold marchDays at hstep hsucc
    by_cases hL : (sy1 + 1) % 4 = 0 ∧ ((sy1 + 1) % 100 ≠ 0 ∨ (sy1 + 1) % 400 = 0)
    · rw [if_pos hL] at hb1 hsucc
      omega
    · rw [if_neg hL] at hb1 hsucc
      omega
  · rw [hseq]
    clear hb1 hb2 hlex hsy1 hsy2 hmp1 hmp2 h1d h2d
    rcases hrest with hmp | ⟨hmpe, hd⟩
    · have hkey := hg1 (by omega)
      omega
    · rw [hmpe]
      omega

/-! ## Satellite data model and report merging
(`src/rinko-backend/src/module/sat/types.rs`, `manager.rs`)

`merge_reports` takes the retention instant `now` explicitly (the source reads
`Utc::now()` inside `clean_old_reports`).  The source buckets new reports in a
`HashMap` whose iteration order is unspecified; the model processes buckets in
first-occurrence order.  This is sound: bucket times are pairwise distinct,
updates of blocks with distinct times commute, and created blocks are finally
ordered by the sort, so every iteration order yields the model's result. -/

/-- Satellite report from the AMSAT API (`types.rs`). -/
structure AmsatReport where
  name : String
  reported_time : String
  callsign : String
  report : String
  grid_square : String
deriving DecidableEq

/-- Hourly bucket of reports (`types.rs`). -/
structure SatelliteDataBlock where
  time : String
  reports : List AmsatReport
deriving DecidableEq

/-- Retention window in hours (`manager.rs`). -/
def DATA_RETENTION_HOURS : Int := 48

/-- `get_time_block`: parse RFC3339, convert to UTC, zero the minute, second and
nanosecond, and re-render with `to_rfc3339`. -/
def get_time_block (timestamp : String) : Option String :=
  (parseRFC3339Nanos timestamp).map fun n =>
    let c := civilOfNanos n
    formatRfc3339WholeSec { c with minute := 0, second := 0, nano := 0 }

/-- The duplicate test of `merge_reports`: same callsign and same reported time. -/
def samePair (a b : AmsatReport) : Bool :=
  a.callsign == b.callsign && a.reported_time == b.reported_time

/-- Append one report to an existing block unless its `(callsign, reported_time)`
already appears (the inner loop of `merge_reports`). -/
def pushReport (b : SatelliteDataBlock) (r : AmsatReport) : SatelliteDataBlock :=
  if b.reports.any (fun x => samePair x r) then b
  else { b with reports := b.reports ++ [r] }

/-- Merge one bucket's reports into an existing block. -/
def updBlock (b : SatelliteDataBlock) (reps : List AmsatReport) : SatelliteDataBlock :=
  reps.foldl pushReport b

/-- Update the first block with the given time (`iter_mut().find` in the source). -/
def updateFirst : List SatelliteDataBlock → String → List AmsatReport →
    List SatelliteDataBlock
  | [], _, _ => []
  | b :: bs, t, reps =>
    if b.time == t then updBlock b reps :: bs else b :: updateFirst bs t reps

/-- Merge one bucket: update the existing block with that time, or push a new block. -/
def mergeStep (blocks : List SatelliteDataBlock) (bucket : String × List AmsatReport) :
    List SatelliteDataBlock :=
  if blocks.any (fun b => b.time == bucket.1) then updateFirst blocks bucket.1 bucket.2
  else blocks ++ [⟨bucket.1, bucket.2⟩]

/-- Merge all buckets into the block list. -/
def mergePhase (blocks : List SatelliteDataBlock)
    (bkts : List (String × List AmsatReport)) : List SatelliteDataBlock :=
  bkts.foldl mergeStep blocks

/-- Add one report to its time bucket (association list in first-occurrence order). -/
def addToBuckets (acc : List (String × List AmsatReport)) (t : String) (r : AmsatReport) :
    List (String × List AmsatReport) :=
  if acc.any (fun p => p.1 == t) then
    acc.map (fun p => if p.1 == t then (p.1, p.2 ++ [r]) else p)
  else acc ++ [(t, [r])]

/-- Group the new reports by hourly time block; fails (like `?` in the source) on
the first report whose `reported_time` does not parse. -/
def bucketReports (reports : List AmsatReport) :
    Option (List (String × List AmsatReport)) :=
  reports.foldlM (fun acc r => (get_time_block r.reported_time).map
    fun t => addToBuckets acc t r) []

/-- The comparator of `data_blocks.sort_by(|a, b| b.time.cmp(&a.time))`:
ascending for this comparator is newest-first. -/
def blockCmp (a b : SatelliteDataBlock) : Ordering := charsCmp b.time.data a.time.data

/-- The stable sort of `merge_reports`. -/
def sortBlocks : List SatelliteDataBlock → List SatelliteDataBlock := sortByCmp blockCmp

/-- Retention test of `clean_old_reports`: parseable and within the last 48 hours. -/
def cleanKeep (now : Int) (t : String) : Bool :=
  match parseRFC3339Nanos t with
  | some v => decide (now - DATA_RETENTION_HOURS * 3600 * 1000000000 ≤ v)
  | none => false

/-- `clean_old_reports`: drop blocks older than 48 hours (or with unparseable time). -/
def clean_old_reports (now : Int) (blocks : List SatelliteDataBlock) :
    List SatelliteDataBlock :=
  blocks.filter (fun b => cleanKeep now b.time)

/-- `merge_reports` (`manager.rs`): bucket the new reports hourly, merge each
bucket into the existing blocks (appending only reports whose
`(callsign, reported_time)` is absent, creating missing blocks), sort newest
first, and prune the retention window. -/
def merge_reports (now : Int) (data_blocks : List SatelliteDataBlock)
    (new_reports : List AmsatReport) : Option (List SatelliteDataBlock) :=
  (bucketReports new_reports).map fun bkts =>
    clean_old_reports now (sortBlocks (mergePhase data_blocks bkts))

/-! ## Structural lemmas about the merge -/

theorem stringDataEq {s t : String} (h : s.data = t.data) : s = t := by
  cases s
  cases t
  exact congrArg String.mk (by simpa using h)

theorem blockCmp_lawful : LawfulCmp blockCmp := by
  refine ⟨?_, ?_, ?_⟩
  · intro a b
    exact charsCmp_swap _ _
  · intro a b c h1 h2
    exact charsCmp_lt_trans h2 h1
  · intro a b h c
    have hts : b.time = a.time := stringDataEq (charsCmp_eq h)
    unfold blockCmp
    rw [hts]

theorem pairwise_filter_of_mem {α} {R : α → α → Prop} {p : α → Bool} (l : List α)
    (h : ∀ a b, p a = true → p b = true → R a b) : (l.filter p).Pairwise R := by
  induction l with
  | nil => simp
  | cons x xs ih =>
    cases hp : p x
    · simpa [List.filter, hp] using ih
    · simp only [List.filter, hp]
      refine List.Pairwise.cons ?_ ih
      intro a ha
      exact h x a hp (List.mem_filter.mp ha).2

/-- The first block carrying a given time (what `iter_mut().find` locates). -/
def firstAtTime (t : String) (l : List SatelliteDataBlock) : Option SatelliteDataBlock :=
  (l.filter (fun b => b.time == t)).head?

theorem firstAtTime_sortBlocks (t : String) (l : List SatelliteDataBlock) :
    firstAtTime t (sortBlocks l) = firstAtTime t l := by
  unfold firstAtTime sortBlocks
  rw [filter_sortByCmp blockCmp_lawful]
  rw [sortByCmp_eq_self blockCmp_lawful]
  apply pairwise_filter_of_mem
  intro a b ha hb
  have hta : a.time = t := by simpa using ha
  have htb : b.time = t := by simpa using hb
  unfold blockCmp
  rw [hta, htb, charsCmp_refl]
  intro hcon
  cases hcon

theorem firstAtTime_clean {now : Int} {t : String} (l : List SatelliteDataBlock)
    (hk : cleanKeep now t = true) :
    firstAtTime t (clean_old_reports now l) = firstAtTime t l := by
  unfold firstAtTime clean_old_reports
  rw [List.filter_filter]
  congr 1
  apply List.filter_congr
  intro b _
  by_cases hbt : b.time = t
  · simp [hbt, hk]
  · simp [hbt]

theorem mem_clean_keep {now : Int} {b : SatelliteDataBlock}
    {l : List SatelliteDataBlock} (h : b ∈ clean_old_reports now l) :
    b ∈ l ∧ cleanKeep now b.time = true := by
  unfold clean_old_reports at h
  exact ⟨(List.mem_filter.mp h).1, (List.mem_filter.mp h).2⟩

theorem updBlock_time (b : SatelliteDataBlock) (reps : List AmsatReport) :
    (updBlock b reps).time = b.time := by
  induction reps generalizing b with
  | nil => rfl
  | cons r rs ih =>
    unfold updBlock List.foldl
    rw [show List.foldl pushReport (pushReport b r) rs = updBlock (pushReport b r) rs from rfl]
    rw [ih]
    unfold pushReport
    split <;> rfl

theorem updBlock_reports_ext (b : SatelliteDataBlock) (reps : List AmsatReport) :
    ∃ ext, (updBlock b reps).reports = b.reports ++ ext := by
  induction reps generalizing b with
  | nil => exact ⟨[], by simp [updBlock]⟩
  | cons r rs ih =>
    have hstep : updBlock b (r :: rs) = updBlock (pushReport b r) rs := rfl
    cases hany : b.reports.any (fun x => samePair x r)
    · have hpush : pushReport b r = ⟨b.time, b.reports ++ [r]⟩ := by
        unfold pushReport
        rw [hany]
        simp
      obtain ⟨ext, hext⟩ := ih ⟨b.time, b.reports ++ [r]⟩
      refine ⟨[r] ++ ext, ?_⟩
      rw [hstep, hpush, hext]
      simp
    · have hpush : pushReport b r = b := by
        unfold pushReport
        rw [hany]
        simp
      obtain ⟨ext, hext⟩ := ih b
      refine ⟨ext, ?_⟩
      rw [hstep, hpush, hext]

theorem updBlock_absorbs (b : SatelliteDataBlock) (reps : List AmsatReport) :
    ∀ r ∈ reps, ∃ x ∈ (updBlock b reps).reports, samePair x r = true := by
  induction reps generalizing b with
  | nil => simp
  | cons r rs ih =>
    intro s hs
    have hstep : updBlock b (r :: rs) = updBlock (pushReport b r) rs := rfl
    rcases List.mem_cons.mp hs with rfl | hsr
    · obtain ⟨ext, hext⟩ := updBlock_reports_ext (pushReport b s) rs
      rw [hstep]
      cases hany : b.reports.any (fun x => samePair x s)
      · have hpush : pushReport b s = ⟨b.time, b.reports ++ [s]⟩ := by
          unfold pushReport
          rw [hany]
          simp
        rw [hpush] at hext
        refine ⟨s, ?_, ?_⟩
        · rw [hpush, hext]
          simp
        · unfold samePair
          simp
      · have hpush : pushReport b s = b := by
          unfold pushReport
          rw [hany]
          simp
        rw [hpush] at hext
        obtain ⟨x, hx, hpair⟩ := List.any_eq_true.mp hany
        refine ⟨x, ?_, hpair⟩
        rw [hpush, hext]
        exact List.mem_append_left _ hx
    · exact hstep ▸ ih (pushReport b r) s hsr

theorem updBlock_eq_self {b : SatelliteDataBlock} {reps : List AmsatReport}
    (h : ∀ r ∈ reps, ∃ x ∈ b.reports, samePair x r = true) : updBlock b reps = b := by
  induction reps with
  | nil => rfl
  | cons r rs ih =>
    have hstep : updBlock b (r :: rs) = updBlock (pushReport b r) rs := rfl
    have hpush : pushReport b r = b := by
      unfold pushReport
      rw [if_pos (List.any_eq_true.mpr (by
        obtain ⟨x, hx, hp⟩ := h r (by simp)
        exact ⟨x, hx, hp⟩))]
    rw [hstep, hpush]
    exact ih (fun s hs => h s (by simp [hs]))

theorem updateFirst_eq_self {l : List SatelliteDataBlock} {t : String}
    {reps : List AmsatReport}
    (h : ∀ b, firstAtTime t l = some b → updBlock b reps = b) :
    updateFirst l t reps = l := by
  induction l with
  | nil => rfl
  | cons b bs ih =>
    unfold updateFirst
    cases hbt : b.time == t
    · simp only [Bool.false_eq_true, if_false]
      congr 1
      apply ih
      intro b0 hb0
      apply h
      unfold firstAtTime at hb0 ⊢
      simp only [List.filter, hbt]
      exact hb0
    · simp only [if_true]
      congr 1
      apply h
      unfold firstAtTime
      simp [List.filter, hbt]


theorem updateFirst_times (l : List SatelliteDataBlock) (t : String)
    (reps : List AmsatReport) :
    (updateFirst l t reps).map (fun b => b.time) = l.map (fun b => b.time) := by
  induction l with
  | nil => rfl
  | cons b bs ih =>
    unfold updateFirst
    cases hbt : b.time == t
    · simp only [Bool.false_eq_true, if_false, List.map_cons, ih]
    · simp only [if_true, List.map_cons, updBlock_time]

theorem mem_updateFirst_ext {l : List SatelliteDataBlock} {t : String}
    {reps : List AmsatReport} {b : SatelliteDataBlock} (hb : b ∈ l) :
    ∃ b' ∈ updateFirst l t reps, b'.time = b.time ∧
      ∃ ext, b'.reports = b.reports ++ ext := by
  induction l with
  | nil => cases hb
  | cons a as ih =>
    unfold updateFirst
    cases hat : a.time == t
    · simp only [Bool.false_eq_true, if_false]
      rcases List.mem_cons.mp hb with rfl | hbs
      · exact ⟨b, by simp, rfl, [], by simp⟩
      · obtain ⟨b', hb', hrest⟩ := ih hbs
        exact ⟨b', List.mem_cons_of_mem _ hb', hrest⟩
    · simp only [if_true]
      rcases List.mem_cons.mp hb with rfl | hbs
      · obtain ⟨ext, hext⟩ := updBlock_reports_ext b reps
        exact ⟨updBlock b reps, by simp, updBlock_time b reps, ext, hext⟩
      · exact ⟨b, List.mem_cons_of_mem _ hbs, rfl, [], by simp⟩

theorem filter_updateFirst_ne {l : List SatelliteDataBlock} {t t' : String}
    {reps : List AmsatReport} (h : t ≠ t') :
    (updateFirst l t' reps).filter (fun b => b.time == t) =
      l.filter (fun b => b.time == t) := by
  induction l with
  | nil => rfl
  | cons a as ih =>
    unfold updateFirst
    cases hat : a.time == t'
    · cases hbt : a.time == t
      · simp only [Bool.false_eq_true, if_false, List.filter, hbt]
        exact ih
      · simp only [Bool.false_eq_true, if_false, List.filter, hbt]
        rw [ih]
    · have hts : a.time = t' := by simpa using hat
      have h1 : (a.time == t) = false := by
        rw [hts]
        exact beq_eq_false_iff_ne.mpr fun he => h he.symm
      have h2 : ((updBlock a reps).time == t) = false := by
        rw [updBlock_time]
        exact h1
      simp only [if_true, List.filter, h1, h2]

theorem firstAtTime_none_of_any_false {t : String} {l : List SatelliteDataBlock}
    (h : l.any (fun b => b.time == t) = false) : firstAtTime t l = none := by
  induction l with
  | nil => rfl
  | cons a as ih =>
    cases hat : a.time == t
    · have has : as.any (fun b => b.time == t) = false := by
        simp only [List.any_cons, hat, Bool.false_or] at h
        exact h
      unfold firstAtTime at ih ⊢
      simp only [List.filter, hat]
      exact ih has
    · simp only [List.any_cons, hat, Bool.true_or] at h
      exact Bool.noConfusion h

theorem firstAtTime_some_of_any {t : String} {l : List SatelliteDataBlock}
    (h : l.any (fun b => b.time == t) = true) :
    ∃ b, firstAtTime t l = some b ∧ b ∈ l ∧ b.time = t := by
  induction l with
  | nil => cases h
  | cons a as ih =>
    cases hat : a.time == t
    · have has : as.any (fun b => b.time == t) = true := by
        simp only [List.any_cons, hat, Bool.false_or] at h
        exact h
      obtain ⟨b, hb1, hb2, hb3⟩ := ih has
      refine ⟨b, ?_, List.mem_cons_of_mem _ hb2, hb3⟩
      unfold firstAtTime at hb1 ⊢
      simp only [List.filter, hat]
      exact hb1
    · refine ⟨a, ?_, by simp, by simpa using hat⟩
      unfold firstAtTime
      simp [List.filter, hat]

theorem firstAtTime_updateFirst_self {l : List SatelliteDataBlock} {t : String}
    {reps : List AmsatReport} {b : SatelliteDataBlock} (h : firstAtTime t l = some b) :
    firstAtTime t (updateFirst l t reps) = some (updBlock b reps) := by
  induction l with
  | nil => simp [firstAtTime] at h
  | cons a as ih =>
    unfold updateFirst
    cases hat : a.time == t
    · simp only [Bool.false_eq_true, if_false]
      unfold firstAtTime at h ⊢
      simp only [List.filter, hat] at h ⊢
      exact ih h
    · simp only [if_true]
      unfold firstAtTime at h ⊢
      simp only [List.filter, hat, List.head?_cons, Option.some.injEq] at h
      subst h
      have hub : ((updBlock a reps).time == t) = true := by
        rw [updBlock_time]
        exact hat
      simp only [List.filter, hub, List.head?_cons]

theorem firstAtTime_mergeStep_ne {t : String} {l : List SatelliteDataBlock}
    {p : String × List AmsatReport} (h : t ≠ p.1) :
    firstAtTime t (mergeStep l p) = firstAtTime t l := by
  unfold mergeStep
  cases hany : l.any (fun b => b.time == p.1)
  · simp only [Bool.false_eq_true, if_false]
    unfold firstAtTime
    rw [List.filter_append]
    have hne : ((⟨p.1, p.2⟩ : SatelliteDataBlock).time == t) = false :=
      beq_eq_false_iff_ne.mpr fun he => h he.symm
    simp [List.filter, hne]
  · simp only [if_true]
    unfold firstAtTime
    rw [filter_updateFirst_ne h]

theorem firstAtTime_mergeStep_self {l : List SatelliteDataBlock}
    {p : String × List AmsatReport} :
    ∃ bt, firstAtTime p.1 (mergeStep l p) = some bt ∧
      ∀ r ∈ p.2, ∃ x ∈ bt.reports, samePair x r = true := by
  unfold mergeStep
  cases hany : l.any (fun b => b.time == p.1)
  · simp only [Bool.false_eq_true, if_false]
    refine ⟨⟨p.1, p.2⟩, ?_, ?_⟩
    · unfold firstAtTime
      rw [List.filter_append, List.filter_eq_nil_iff.mpr ?_]
      · simp [List.filter]
      · exact List.any_eq_false.mp hany
    · intro r hr
      refine ⟨r, hr, ?_⟩
      unfold samePair
      simp
  · simp only [if_true]
    obtain ⟨b, hb1, _, _⟩ := firstAtTime_some_of_any hany
    exact ⟨updBlock b p.2, firstAtTime_updateFirst_self hb1, updBlock_absorbs b p.2⟩

theorem firstAtTime_mergePhase_ne {t : String} {l : List SatelliteDataBlock}
    {bkts : List (String × List AmsatReport)} (h : ∀ p ∈ bkts, t ≠ p.1) :
    firstAtTime t (mergePhase l bkts) = firstAtTime t l := by
  induction bkts generalizing l with
  | nil => rfl
  | cons p ps ih =>
    have hstep : mergePhase l (p :: ps) = mergePhase (mergeStep l p) ps := rfl
    rw [hstep, ih (fun q hq => h q (by simp [hq])), firstAtTime_mergeStep_ne (h p (by simp))]

theorem firstAtTime_mergePhase {l : List SatelliteDataBlock}
    {bkts : List (String × List AmsatReport)}
    (hkd : bkts.Pairwise (fun p q => p.1 ≠ q.1)) :
    ∀ p ∈ bkts, ∃ bt, firstAtTime p.1 (mergePhase l bkts) = some bt ∧
      ∀ r ∈ p.2, ∃ x ∈ bt.reports, samePair x r = true := by
  induction bkts generalizing l with
  | nil => simp
  | cons q qs ih =>
    intro p hp
    have hstep : mergePhase l (q :: qs) = mergePhase (mergeStep l q) qs := rfl
    rcases List.mem_cons.mp hp with rfl | hpq
    · obtain ⟨bt, hbt, habs⟩ := firstAtTime_mergeStep_self (l := l) (p := p)
      refine ⟨bt, ?_, habs⟩
      rw [hstep, firstAtTime_mergePhase_ne ?_, hbt]
      exact (List.pairwise_cons.mp hkd).1
    · exact hstep ▸ ih (List.pairwise_cons.mp hkd).2 p hpq

theorem updateFirst_append_of_any {l l2 : List SatelliteDataBlock} {t : String}
    {reps : List AmsatReport} (h : l.any (fun b => b.time == t) = true) :
    updateFirst (l ++ l2) t reps = updateFirst l t reps ++ l2 := by
  induction l with
  | nil => cases h
  | cons a as ih =>
    rw [List.cons_append]
    unfold updateFirst
    cases hat : a.time == t
    · have has : as.any (fun b => b.time == t) = true := by
        simp only [List.any_cons, hat, Bool.false_or] at h
        exact h
      simp only [Bool.false_eq_true, if_false, ih has, List.cons_append]
    · simp only [if_true, List.cons_append]

theorem mergePhase_dead {now : Int} {M : List SatelliteDataBlock} :
    ∀ (bkts : List (String × List AmsatReport)) (dead : List SatelliteDataBlock),
      (∀ p ∈ bkts,
        (M.any (fun b => b.time == p.1) = true → updateFirst M p.1 p.2 = M) ∧
        (M.any (fun b => b.time == p.1) = false → cleanKeep now p.1 = false)) →
      bkts.Pairwise (fun p q => p.1 ≠ q.1) →
      (∀ b ∈ dead, cleanKeep now b.time = false) →
      (∀ b ∈ dead, ∀ p ∈ bkts, b.time ≠ p.1) →
      ∃ dead', mergePhase (M ++ dead) bkts = M ++ dead' ∧
        ∀ b ∈ dead', cleanKeep now b.time = false := by
  intro bkts
  induction bkts with
  | nil => exact fun dead _ _ hdc _ => ⟨dead, rfl, hdc⟩
  | cons p ps ih =>
    intro dead hH hkd hdc hdk
    have hstep : mergePhase (M ++ dead) (p :: ps) =
        mergePhase (mergeStep (M ++ dead) p) ps := rfl
    have hdeadany : dead.any (fun b => b.time == p.1) = false := by
      rw [List.any_eq_false]
      intro b hb
      simp only [beq_iff_eq]
      exact hdk b hb p (by simp)
    rw [hstep]
    unfold mergeStep
    rw [List.any_append, hdeadany, Bool.or_false]
    cases hMany : M.any (fun b => b.time == p.1)
    · simp only [Bool.false_eq_true, if_false]
      have hck : cleanKeep now p.1 = false := (hH p (by simp)).2 hMany
      rw [List.append_assoc]
      refine ih (dead ++ [⟨p.1, p.2⟩]) (fun q hq => hH q (by simp [hq]))
        (List.pairwise_cons.mp hkd).2 ?_ ?_
      · intro b hb
        rcases List.mem_append.mp hb with hb | hb
        · exact hdc b hb
        · simp only [List.mem_singleton] at hb
          subst hb
          exact hck
      · intro b hb q hq
        rcases List.mem_append.mp hb with hb | hb
        · exact hdk b hb q (by simp [hq])
        · simp only [List.mem_singleton] at hb
          subst hb
          exact (List.pairwise_cons.mp hkd).1 q hq
    · simp only [if_true]
      rw [updateFirst_append_of_any hMany, (hH p (by simp)).1 hMany]
      exact ih dead (fun q hq => hH q (by simp [hq])) (List.pairwise_cons.mp hkd).2 hdc
        (fun b hb q hq => hdk b hb q (by simp [hq]))


/-! ## Bucketing invariants -/

theorem bucketReports_fold_inv
    {P : List (String × List AmsatReport) → List AmsatReport → Prop}
    (hstep : ∀ acc done r t, get_time_block r.reported_time = some t →
      P acc done → P (addToBuckets acc t r) (done ++ [r])) :
    ∀ (rs : List AmsatReport) (acc : List (String × List AmsatReport))
      (out : List (String × List AmsatReport)) (done : List AmsatReport),
      P acc done →
      rs.foldlM (fun acc r => (get_time_block r.reported_time).map
        fun t => addToBuckets acc t r) acc = some out →
      P out (done ++ rs) := by
  intro rs
  induction rs with
  | nil =>
    intro acc out done hP hout
    simp only [List.foldlM_nil, Option.pure_def, Option.some.injEq] at hout
    subst hout
    simpa using hP
  | cons r rs ih =>
    intro acc out done hP hout
    rw [List.foldlM_cons] at hout
    cases hgt : get_time_block r.reported_time with
    | none =>
      rw [hgt] at hout
      simp at hout
    | some t =>
      rw [hgt] at hout
      simp only [Option.map_some', Option.bind_eq_bind, Option.some_bind] at hout
      have := ih (addToBuckets acc t r) out (done ++ [r]) (hstep acc done r t hgt hP) hout
      simpa using this

theorem addToBuckets_fst (acc : List (String × List AmsatReport)) (t : String)
    (r : AmsatReport) {p : String × List AmsatReport} (hp : p ∈ addToBuckets acc t r) :
    p.1 = t ∨ p.1 ∈ acc.map (fun q => q.1) := by
  unfold addToBuckets at hp
  cases hany : acc.any (fun p => p.1 == t)
  · rw [hany] at hp
    simp only [Bool.false_eq_true, if_false] at hp
    rcases List.mem_append.mp hp with hp | hp
    · exact Or.inr (List.mem_map.mpr ⟨p, hp, rfl⟩)
    · simp only [List.mem_singleton] at hp
      subst hp
      exact Or.inl rfl
  · rw [hany] at hp
    simp only [if_true] at hp
    obtain ⟨q, hq, hpq⟩ := List.mem_map.mp hp
    right
    by_cases hqt : (q.1 == t) = true
    · rw [if_pos hqt] at hpq
      subst hpq
      exact List.mem_map.mpr ⟨q, hq, rfl⟩
    · rw [if_neg hqt] at hpq
      subst hpq
      exact List.mem_map.mpr ⟨q, hq, rfl⟩

theorem addToBuckets_keys_distinct {acc : List (String × List AmsatReport)}
    {t : String} {r : AmsatReport} (h : acc.Pairwise (fun p q => p.1 ≠ q.1)) :
    (addToBuckets acc t r).Pairwise (fun p q => p.1 ≠ q.1) := by
  unfold addToBuckets
  cases hany : acc.any (fun p => p.1 == t)
  · simp only [Bool.false_eq_true, if_false]
    rw [List.pairwise_append]
    refine ⟨h, by simp, ?_⟩
    intro p hp q hq
    simp only [List.mem_singleton] at hq
    subst hq
    intro he
    have : acc.any (fun p => p.1 == t) = true :=
      List.any_eq_true.mpr ⟨p, hp, by simp [he]⟩
    rw [hany] at this
    exact Bool.noConfusion this
  · simp only [if_true]
    refine h.map _ ?_
    intro a b hab
    by_cases ha : (a.1 == t) = true <;> by_cases hb : (b.1 == t) = true <;>
      simp only [if_pos, if_neg, ha, hb, if_true, Bool.false_eq_true, if_false] <;>
      exact hab

theorem addToBuckets_sub {acc : List (String × List AmsatReport)}
    {done : List AmsatReport} {t : String} {r : AmsatReport}
    (h : ∀ p ∈ acc, p.2.Sublist done) :
    ∀ p ∈ addToBuckets acc t r, p.2.Sublist (done ++ [r]) := by
  unfold addToBuckets
  cases hany : acc.any (fun p => p.1 == t)
  · simp only [Bool.false_eq_true, if_false]
    intro p hp
    rcases List.mem_append.mp hp with hp | hp
    · exact (h p hp).trans (List.sublist_append_left _ _)
    · simp only [List.mem_singleton] at hp
      subst hp
      exact List.sublist_append_right done [r]
  · simp only [if_true]
    intro p hp
    obtain ⟨q, hq, hpq⟩ := List.mem_map.mp hp
    by_cases hqt : (q.1 == t) = true
    · rw [if_pos hqt] at hpq
      subst hpq
      exact List.Sublist.append (h q hq) (List.Sublist.refl [r])
    · rw [if_neg hqt] at hpq
      subst hpq
      exact (h q hq).trans (List.sublist_append_left _ _)

theorem bucketReports_keys_distinct {R : List AmsatReport}
    {bkts : List (String × List AmsatReport)} (h : bucketReports R = some bkts) :
    bkts.Pairwise (fun p q => p.1 ≠ q.1) := by
  have := bucketReports_fold_inv
    (P := fun acc _ => acc.Pairwise (fun p q => p.1 ≠ q.1))
    (fun _ _ _ _ _ hP => addToBuckets_keys_distinct hP) R [] bkts []
    (by simp) h
  exact this

theorem bucketReports_sub {R : List AmsatReport}
    {bkts : List (String × List AmsatReport)} (h : bucketReports R = some bkts) :
    ∀ p ∈ bkts, p.2.Sublist R := by
  have := bucketReports_fold_inv
    (P := fun acc done => ∀ p ∈ acc, p.2.Sublist done)
    (fun _ _ _ _ _ hP => addToBuckets_sub hP) R [] bkts []
    (by simp) h
  simpa using this

theorem bucketReports_keys_canonical {R : List AmsatReport}
    {bkts : List (String × List AmsatReport)} (h : bucketReports R = some bkts) :
    ∀ p ∈ bkts, ∃ s, get_time_block s = some p.1 := by
  have := bucketReports_fold_inv
    (P := fun acc _ => ∀ p ∈ acc, ∃ s, get_time_block s = some p.1)
    (fun acc _ r t hgt hP => by
      intro p hp
      rcases addToBuckets_fst acc t r hp with hpt | hpm
      · exact ⟨r.reported_time, hpt ▸ hgt⟩
      · obtain ⟨q, hq, hql⟩ := List.mem_map.mp hpm
        exact hql ▸ hP q hq) R [] bkts []
    (by simp) h
  exact this

/-! ## Idempotence of the merge -/

theorem clean_sort_append_dead {now : Int} {M dead : List SatelliteDataBlock}
    (hM : ∀ b ∈ M, cleanKeep now b.time = true)
    (hMs : M.Pairwise (fun a b => blockCmp a b ≠ .gt))
    (hdead : ∀ b ∈ dead, cleanKeep now b.time = false) :
    clean_old_reports now (sortBlocks (M ++ dead)) = M := by
  unfold clean_old_reports sortBlocks
  rw [filter_sortByCmp blockCmp_lawful]
  rw [List.filter_append]
  rw [List.filter_eq_self.mpr hM]
  rw [List.filter_eq_nil_iff.mpr ?_]
  · rw [List.append_nil]
    exact sortByCmp_eq_self blockCmp_lawful hMs
  · intro b hb
    simp only [Bool.not_eq_true]
    exact hdead b hb

theorem merge_reports_some_elim {now : Int} {B M : List SatelliteDataBlock}
    {R : List AmsatReport} (h : merge_reports now B R = some M) :
    ∃ bkts, bucketReports R = some bkts ∧
      M = clean_old_reports now (sortBlocks (mergePhase B bkts)) := by
  unfold merge_reports at h
  cases hb : bucketReports R with
  | none =>
    rw [hb] at h
    exact Option.noConfusion h
  | some bkts =>
    rw [hb] at h
    simp only [Option.map_some', Option.some.injEq] at h
    exact ⟨bkts, rfl, h.symm⟩

theorem merge_reports_idem {now : Int} {B M : List SatelliteDataBlock}
    {R : List AmsatReport} (h : merge_reports now B R = some M) :
    merge_reports now M R = some M := by
  obtain ⟨bkts, hbk, hM⟩ := merge_reports_some_elim h
  have hkd : bkts.Pairwise (fun p q => p.1 ≠ q.1) := bucketReports_keys_distinct hbk
  have hMkeep : ∀ b ∈ M, cleanKeep now b.time = true := by
    intro b hb
    rw [hM] at hb
    exact (mem_clean_keep hb).2
  have hMs : M.Pairwise (fun a b => blockCmp a b ≠ .gt) := by
    rw [hM]
    exact (pairwise_sortByCmp blockCmp_lawful _).filter _
  have hH : ∀ p ∈ bkts,
      (M.any (fun b => b.time == p.1) = true → updateFirst M p.1 p.2 = M) ∧
      (M.any (fun b => b.time == p.1) = false → cleanKeep now p.1 = false) := by
    intro p hp
    obtain ⟨bt, hbt, habs⟩ := firstAtTime_mergePhase hkd p hp (l := B)
    constructor
    · intro hMany
      obtain ⟨b, hb1, hb2, hb3⟩ := firstAtTime_some_of_any hMany
      have hck : cleanKeep now p.1 = true := hb3 ▸ hMkeep b hb2
      have hchain : firstAtTime p.1 M = some bt := by
        rw [hM, firstAtTime_clean _ hck, firstAtTime_sortBlocks]
        exact hbt
      apply updateFirst_eq_self
      intro b0 hb0
      rw [hchain] at hb0
      cases hb0
      exact updBlock_eq_self habs
    · intro hMany
      cases hck : cleanKeep now p.1
      · rfl
      · have hchain : firstAtTime p.1 M = some bt := by
          rw [hM, firstAtTime_clean _ hck, firstAtTime_sortBlocks]
          exact hbt
        rw [firstAtTime_none_of_any_false hMany] at hchain
        exact Option.noConfusion hchain
  obtain ⟨dead', hmp, hdead'⟩ := @mergePhase_dead now M bkts [] hH hkd
    (by simp) (by simp)
  unfold merge_reports
  rw [hbk]
  simp only [Option.map_some', Option.some.injEq]
  rw [show M ++ ([] : List SatelliteDataBlock) = M from List.append_nil M] at hmp
  rw [hmp]
  exact clean_sort_append_dead hMkeep hMs hdead'

theorem merge_reports_nil_sorted {now : Int} {B : List SatelliteDataBlock}
    (hs : B.Pairwise (fun a b => blockCmp a b ≠ .gt)) :
    merge_reports now B [] = some (clean_old_reports now B) := by
  unfold merge_reports bucketReports
  simp only [List.foldlM_nil, Option.pure_def, Option.map_some', Option.some.injEq]
  unfold mergePhase
  rw [List.foldl_nil]
  unfold sortBlocks
  rw [sortByCmp_eq_self blockCmp_lawful hs]


/-! ## Per-block report uniqueness and append-only growth -/

theorem pushReport_pairwise {b : SatelliteDataBlock} {r : AmsatReport}
    (h : b.reports.Pairwise (fun x y => samePair x y = false)) :
    (pushReport b r).reports.Pairwise (fun x y => samePair x y = false) := by
  unfold pushReport
  cases hany : b.reports.any (fun x => samePair x r)
  · simp only [Bool.false_eq_true, if_false]
    show (b.reports ++ [r]).Pairwise (fun x y => samePair x y = false)
    rw [List.pairwise_append]
    refine ⟨h, by simp, ?_⟩
    intro x hx y hy
    simp only [List.mem_singleton] at hy
    subst hy
    simpa using List.any_eq_false.mp hany x hx
  · simp only [if_true]
    exact h

theorem updBlock_pairwise {b : SatelliteDataBlock} {reps : List AmsatReport}
    (h : b.reports.Pairwise (fun x y => samePair x y = false)) :
    (updBlock b reps).reports.Pairwise (fun x y => samePair x y = false) := by
  induction reps generalizing b with
  | nil => exact h
  | cons r rs ih => exact ih (pushReport_pairwise h)

theorem mem_updateFirst_cases {l : List SatelliteDataBlock} {t : String}
    {reps : List AmsatReport} {b' : SatelliteDataBlock}
    (h : b' ∈ updateFirst l t reps) : b' ∈ l ∨ ∃ b ∈ l, b' = updBlock b reps := by
  induction l with
  | nil => cases h
  | cons a as ih =>
    revert h
    unfold updateFirst
    cases hat : a.time == t
    · simp only [Bool.false_eq_true, if_false]
      intro h
      rcases List.mem_cons.mp h with rfl | hbs
      · exact Or.inl (by simp)
      · rcases ih hbs with h1 | ⟨b, hb, h2⟩
        · exact Or.inl (List.mem_cons_of_mem _ h1)
        · exact Or.inr ⟨b, List.mem_cons_of_mem _ hb, h2⟩
    · simp only [if_true]
      intro h
      rcases List.mem_cons.mp h with rfl | hbs
      · exact Or.inr ⟨a, by simp, rfl⟩
      · exact Or.inl (List.mem_cons_of_mem _ hbs)

theorem mem_mergeStep_cases {l : List SatelliteDataBlock}
    {p : String × List AmsatReport} {b' : SatelliteDataBlock}
    (h : b' ∈ mergeStep l p) :
    b' ∈ l ∨ (∃ b ∈ l, b' = updBlock b p.2) ∨ b' = ⟨p.1, p.2⟩ := by
  revert h
  unfold mergeStep
  cases hany : l.any (fun b => b.time == p.1)
  · simp only [Bool.false_eq_true, if_false]
    intro h
    rcases List.mem_append.mp h with h | h
    · exact Or.inl h
    · simp only [List.mem_singleton] at h
      exact Or.inr (Or.inr h)
  · simp only [if_true]
    intro h
    rcases mem_updateFirst_cases h with h | h
    · exact Or.inl h
    · exact Or.inr (Or.inl h)

theorem mergePhase_pairwise {l : List SatelliteDataBlock}
    {bkts : List (String × List AmsatReport)}
    (hl : ∀ b ∈ l, b.reports.Pairwise (fun x y => samePair x y = false))
    (hb : ∀ p ∈ bkts, p.2.Pairwise (fun x y => samePair x y = false)) :
    ∀ b ∈ mergePhase l bkts, b.reports.Pairwise (fun x y => samePair x y = false) := by
  induction bkts generalizing l with
  | nil => exact hl
  | cons p ps ih =>
    refine ih ?_ (fun q hq => hb q (by simp [hq]))
    intro b hbm
    rcases mem_mergeStep_cases hbm with h | ⟨b0, hb0, rfl⟩ | rfl
    · exact hl b h
    · exact updBlock_pairwise (hl b0 hb0)
    · exact hb p (by simp)

theorem mem_mergeStep_ext {l : List SatelliteDataBlock}
    {p : String × List AmsatReport} {b : SatelliteDataBlock} (hb : b ∈ l) :
    ∃ b' ∈ mergeStep l p, b'.time = b.time ∧
      ∃ ext, b'.reports = b.reports ++ ext := by
  unfold mergeStep
  cases hany : l.any (fun x => x.time == p.1)
  · simp only [Bool.false_eq_true, if_false]
    exact ⟨b, List.mem_append_left _ hb, rfl, [], by simp⟩
  · simp only [if_true]
    exact mem_updateFirst_ext hb

theorem mem_mergePhase_ext {bkts : List (String × List AmsatReport)}
    {l : List SatelliteDataBlock} {b : SatelliteDataBlock} (hb : b ∈ l) :
    ∃ b' ∈ mergePhase l bkts, b'.time = b.time ∧
      ∃ ext, b'.reports = b.reports ++ ext := by
  induction bkts generalizing l b with
  | nil => exact ⟨b, hb, rfl, [], by simp⟩
  | cons p ps ih =>
    obtain ⟨b1, hb1, ht1, ext1, he1⟩ := mem_mergeStep_ext hb (p := p)
    obtain ⟨b2, hb2, ht2, ext2, he2⟩ := ih hb1
    exact ⟨b2, hb2, ht2.trans ht1, ext1 ++ ext2, by rw [he2, he1, List.append_assoc]⟩

theorem mem_merge_reports_ext {now : Int} {B M : List SatelliteDataBlock}
    {R : List AmsatReport} (hM : merge_reports now B R = some M) :
    ∀ b ∈ B, cleanKeep now b.time = true →
      ∃ b' ∈ M, b'.time = b.time ∧ ∃ ext, b'.reports = b.reports ++ ext := by
  obtain ⟨bkts, hbk, hMe⟩ := merge_reports_some_elim hM
  intro b hb hck
  obtain ⟨b', hb', ht, ext, he⟩ := @mem_mergePhase_ext bkts _ _ hb
  refine ⟨b', ?_, ht, ext, he⟩
  rw [hMe]
  unfold clean_old_reports
  rw [List.mem_filter]
  refine ⟨?_, ?_⟩
  · unfold sortBlocks
    exact mem_sortByCmp.mpr hb'
  · rw [ht]
    exact hck

/-! ## Concrete merge scenarios -/

def repW : AmsatReport :=
  { name := "ISS", reported_time := "2025-06-01T12:34:56+00:00",
    callsign := "N0CALL", report := "Heard", grid_square := "FN31" }

def blkW : SatelliteDataBlock :=
  { time := "2025-06-01T12:00:00+00:00", reports := [repW] }

def blkOldW : SatelliteDataBlock :=
  { time := "2025-06-01T10:00:00+00:00", reports := [] }

def blkNewW : SatelliteDataBlock :=
  { time := "2025-06-01T12:00:00+00:00", reports := [] }

def repFutureW : AmsatReport :=
  { name := "ISS", reported_time := "2025-06-01T12:10:00+00:00",
    callsign := "N1FUT", report := "Heard", grid_square := "" }

def repDupA : AmsatReport :=
  { name := "ISS", reported_time := "2025-06-01T12:05:00+00:00",
    callsign := "N0CALL", report := "Heard", grid_square := "" }

def repDupB : AmsatReport :=
  { name := "ISS", reported_time := "2025-06-01T12:20:00+00:00",
    callsign := "N0CALL", report := "Not Heard", grid_square := "" }

/-- C4 counterexample: merging the empty report list into an unsorted block
list does not merely prune it; the result is also re-sorted newest-first, so
it differs from the pruned input. -/
theorem merge_reports_nil_counterexample :
    merge_reports 1748782800000000000 [blkOldW, blkNewW] [] ≠
      some (clean_old_reports 1748782800000000000 [blkOldW, blkNewW]) := by
  decide

/-- C4 (amended): at a fixed `now`, merging the same report list a second time
yields the same block list as merging it once; and merging the empty report
list yields the input pruned to the retention window provided the input is
already sorted newest-first (an unsorted input is additionally re-sorted). -/
theorem merge_reports_idem_amended {now : Int} {B M : List SatelliteDataBlock}
    {R : List AmsatReport} (hM : merge_reports now B R = some M)
    (hs : B.Pairwise (fun a b => blockCmp a b ≠ .gt)) :
    merge_reports now M R = some M ∧
      merge_reports now B [] = some (clean_old_reports now B) :=
  ⟨merge_reports_idem hM, merge_reports_nil_sorted hs⟩

theorem merge_reports_idem_amended_witness :
    merge_reports 1748782800000000000 [blkW] [repW] = some [blkW] ∧
      merge_reports 1748782800000000000 [] [] =
        some (clean_old_reports 1748782800000000000 []) :=
  merge_reports_idem_amended (by decide) List.Pairwise.nil

/-- C5: `merge_reports` applies no future-dated filter.  With
`now` = 2025-06-01T12:00:00Z, a report stamped 12:10 (ten minutes ahead of
`now`) is bucketed and appears in the merged output. -/
theorem merge_reports_future_report_kept :
    merge_reports 1748779200000000000 [] [repFutureW] =
      some [{ time := "2025-06-01T12:00:00+00:00", reports := [repFutureW] }] := by
  decide

/-- C6 counterexample: two reports with the same callsign but different
reported times land side by side in the same hourly block, so reports are not
unique by callsign within a block, and the earlier report is kept rather than
replaced by the newer one. -/
theorem merge_reports_callsign_counterexample :
    merge_reports 1748782800000000000 [] [repDupA, repDupB] =
        some [{ time := "2025-06-01T12:00:00+00:00", reports := [repDupA, repDupB] }] ∧
      repDupA.callsign = repDupB.callsign ∧ repDupA ≠ repDupB := by
  decide

/-- C6 (amended): within a block, reports are unique by the pair
`(callsign, reported_time)` — not by callsign alone — and this is preserved by
`merge_reports` whenever the incoming report list carries no duplicate pair;
an incoming report whose pair is already present is dropped (the stored report
wins), and a surviving block keeps its stored reports as a prefix: new reports
are appended, never replacing older ones. -/
theorem merge_reports_pair_unique {now : Int} {B M : List SatelliteDataBlock}
    {R : List AmsatReport}
    (hB : ∀ b ∈ B, b.reports.Pairwise (fun x y => samePair x y = false))
    (hR : R.Pairwise (fun x y => samePair x y = false))
    (hM : merge_reports now B R = some M) :
    (∀ b ∈ M, b.reports.Pairwise (fun x y => samePair x y = false)) ∧
      ∀ b ∈ B, cleanKeep now b.time = true →
        ∃ b' ∈ M, b'.time = b.time ∧ ∃ ext, b'.reports = b.reports ++ ext := by
  obtain ⟨bkts, hbk, hMe⟩ := merge_reports_some_elim hM
  constructor
  · intro b hbM
    rw [hMe] at hbM
    have hb1 := (mem_clean_keep hbM).1
    unfold sortBlocks at hb1
    have hb2 : b ∈ mergePhase B bkts := mem_sortByCmp.mp hb1
    refine mergePhase_pairwise hB ?_ b hb2
    intro p hp
    exact (hR.sublist (bucketReports_sub hbk p hp))
  · exact mem_merge_reports_ext hM

theorem merge_reports_pair_unique_witness :
    merge_reports 1748782800000000000 [blkW] [repW] = some [blkW] ∧
      (∀ b ∈ [blkW], b.reports.Pairwise (fun x y => samePair x y = false)) ∧
      ∀ b ∈ [blkW], cleanKeep 1748782800000000000 b.time = true →
        ∃ b' ∈ [blkW], b'.time = b.time ∧ ∃ ext, b'.reports = b.reports ++ ext := by
  have hM : merge_reports 1748782800000000000 [blkW] [repW] = some [blkW] := by decide
  obtain ⟨h1, h2⟩ := merge_reports_pair_unique (by decide) (by decide) hM
  exact ⟨hM, h1, h2⟩


/-! ## Permutation and distinct block times -/

theorem perm_insertCmp (cmp : α → α → Ordering) (x : α) (l : List α) :
    List.Perm (insertCmp cmp x l) (x :: l) := by
  induction l with
  | nil => exact List.Perm.refl _
  | cons y ys ih =>
    unfold insertCmp
    by_cases h : cmp y x = .lt
    · rw [if_pos h]
      exact (ih.cons y).trans (List.Perm.swap x y ys)
    · rw [if_neg h]

theorem perm_sortByCmp (cmp : α → α → Ordering) (l : List α) :
    List.Perm (sortByCmp cmp l) l := by
  induction l with
  | nil => exact List.Perm.refl _
  | cons x xs ih => exact (perm_insertCmp cmp x (sortByCmp cmp xs)).trans (ih.cons x)

theorem updateFirst_pairwise_time {l : List SatelliteDataBlock} {t : String}
    {reps : List AmsatReport}
    (h : l.Pairwise (fun a b => a.time ≠ b.time)) :
    (updateFirst l t reps).Pairwise (fun a b => a.time ≠ b.time) := by
  have hm : ((updateFirst l t reps).map (fun b => b.time)).Pairwise
      (fun a b => a ≠ b) := by
    rw [updateFirst_times]
    exact (List.pairwise_map).mpr h
  exact (List.pairwise_map).mp hm

theorem mergeStep_pairwise_time {l : List SatelliteDataBlock}
    {p : String × List AmsatReport}
    (h : l.Pairwise (fun a b => a.time ≠ b.time)) :
    (mergeStep l p).Pairwise (fun a b => a.time ≠ b.time) := by
  unfold mergeStep
  cases hany : l.any (fun b => b.time == p.1)
  · simp only [Bool.false_eq_true, if_false]
    rw [List.pairwise_append]
    refine ⟨h, by simp, ?_⟩
    intro a ha b hb
    simp only [List.mem_singleton] at hb
    subst hb
    intro he
    have : l.any (fun b => b.time == p.1) = true :=
      List.any_eq_true.mpr ⟨a, ha, by simp [he]⟩
    rw [hany] at this
    exact Bool.noConfusion this
  · simp only [if_true]
    exact updateFirst_pairwise_time h

theorem mergePhase_pairwise_time {l : List SatelliteDataBlock}
    {bkts : List (String × List AmsatReport)}
    (h : l.Pairwise (fun a b => a.time ≠ b.time)) :
    (mergePhase l bkts).Pairwise (fun a b => a.time ≠ b.time) := by
  induction bkts generalizing l with
  | nil => exact h
  | cons p ps ih => exact ih (mergeStep_pairwise_time h)

theorem mem_mergePhase_time {l : List SatelliteDataBlock}
    {bkts : List (String × List AmsatReport)} {b : SatelliteDataBlock}
    (hb : b ∈ mergePhase l bkts) :
    (∃ b0 ∈ l, b.time = b0.time) ∨ ∃ p ∈ bkts, b.time = p.1 := by
  induction bkts generalizing l with
  | nil => exact Or.inl ⟨b, hb, rfl⟩
  | cons p ps ih =>
    rcases ih hb with ⟨b0, hb0, ht⟩ | ⟨q, hq, ht⟩
    · rcases mem_mergeStep_cases hb0 with h1 | ⟨b1, hb1, rfl⟩ | rfl
      · exact Or.inl ⟨b0, h1, ht⟩
      · exact Or.inl ⟨b1, hb1, ht.trans (updBlock_time b1 p.2)⟩
      · exact Or.inr ⟨p, by simp, ht⟩
    · exact Or.inr ⟨q, by simp [hq], ht⟩

/-! ## Retention and bucketing facts used by the merge postcondition -/

theorem cleanKeep_elim {now : Int} {t : String} (h : cleanKeep now t = true) :
    ∃ v, parseRFC3339Nanos t = some v ∧
      now - DATA_RETENTION_HOURS * 3600 * 1000000000 ≤ v := by
  unfold cleanKeep at h
  cases hp : parseRFC3339Nanos t with
  | none =>
    rw [hp] at h
    exact Bool.noConfusion h
  | some v =>
    rw [hp] at h
    exact ⟨v, rfl, by simpa using h⟩

theorem bucketReports_total {R : List AmsatReport}
    (hR : ∀ r ∈ R, (parseRFC3339Nanos r.reported_time).isSome = true) :
    ∃ bkts, bucketReports R = some bkts := by
  unfold bucketReports
  suffices hgen : ∀ (rs : List AmsatReport),
      (∀ r ∈ rs, (parseRFC3339Nanos r.reported_time).isSome = true) →
      ∀ acc, ∃ out, rs.foldlM (fun acc r => (get_time_block r.reported_time).map
        fun t => addToBuckets acc t r) acc = some out by
    exact hgen R hR []
  intro rs
  induction rs with
  | nil => exact fun _ acc => ⟨acc, rfl⟩
  | cons r rs ih =>
    intro h acc
    have hr := h r (by simp)
    cases hgt : get_time_block r.reported_time with
    | none =>
      exfalso
      unfold get_time_block at hgt
      cases hp : parseRFC3339Nanos r.reported_time
      · rw [hp] at hr
        exact Bool.noConfusion hr
      · rw [hp] at hgt
        simp at hgt
    | some t =>
      obtain ⟨out, hout⟩ := ih (fun x hx => h x (by simp [hx])) (addToBuckets acc t r)
      refine ⟨out, ?_⟩
      rw [List.foldlM_cons, hgt]
      simp only [Option.map_some', Option.bind_eq_bind, Option.some_bind]
      exact hout

theorem get_time_block_shape {s t : String} (h : get_time_block s = some t) :
    ∃ y mo d h0 : Nat, t.data = formatCivilN y mo d h0 0 0 := by
  unfold get_time_block at h
  cases hp : parseRFC3339Nanos s with
  | none =>
    rw [hp] at h
    exact Option.noConfusion h
  | some n =>
    rw [hp] at h
    simp only [Option.map_some', Option.some.injEq] at h
    refine ⟨(civilOfNanos n).year.toNat, (civilOfNanos n).month.toNat,
      (civilOfNanos n).day.toNat, (civilOfNanos n).hour.toNat, ?_⟩
    rw [← h]
    rfl

theorem daysInMonth_le31 (y mo : Int) : daysInMonth y mo ≤ 31 := by
  rw [daysInMonth_char]
  split_ifs <;> omega


/-! ## String order on canonical hourly times agrees with instant order -/

theorem formatCivilN_lt_lex {y1 mo1 d1 h1 y2 mo2 d2 h2 : Nat}
    (hy1 : y1 ≤ 9999) (hy2 : y2 ≤ 9999) (hmo1 : mo1 ≤ 12) (hmo2 : mo2 ≤ 12)
    (hd1 : d1 ≤ 31) (hd2 : d2 ≤ 31) (hh1 : h1 ≤ 23) (hh2 : h2 ≤ 23)
    (hch : charsCmp (formatCivilN y2 mo2 d2 h2 0 0)
      (formatCivilN y1 mo1 d1 h1 0 0) = .lt) :
    y2 < y1 ∨ (y2 = y1 ∧ (mo2 < mo1 ∨ (mo2 = mo1 ∧
      (d2 < d1 ∨ (d2 = d1 ∧ h2 < h1))))) := by
  have hp4 : (10 : Nat) ^ 4 = 10000 := by norm_num
  have hp2 : (10 : Nat) ^ 2 = 100 := by norm_num
  unfold formatCivilN at hch
  rw [charsCmp_append_padNum (by omega) (by omega)] at hch
  by_cases hy : y2 < y1
  · exact Or.inl hy
  · rw [if_neg hy] at hch
    by_cases hy' : y1 < y2
    · rw [if_pos hy'] at hch
      exact Ordering.noConfusion hch
    · rw [if_neg hy'] at hch
      rw [charsCmp_cons_same] at hch
      rw [charsCmp_append_padNum (by omega) (by omega)] at hch
      refine Or.inr ⟨by omega, ?_⟩
      by_cases hmo : mo2 < mo1
      · exact Or.inl hmo
      · rw [if_neg hmo] at hch
        by_cases hmo' : mo1 < mo2
        · rw [if_pos hmo'] at hch
          exact Ordering.noConfusion hch
        · rw [if_neg hmo'] at hch
          rw [charsCmp_cons_same] at hch
          rw [charsCmp_append_padNum (by omega) (by omega)] at hch
          refine Or.inr ⟨by omega, ?_⟩
          by_cases hd : d2 < d1
          · exact Or.inl hd
          · rw [if_neg hd] at hch
            by_cases hd' : d1 < d2
            · rw [if_pos hd'] at hch
              exact Ordering.noConfusion hch
            · rw [if_neg hd'] at hch
              rw [charsCmp_cons_same] at hch
              rw [charsCmp_append_padNum (by omega) (by omega)] at hch
              refine Or.inr ⟨by omega, ?_⟩
              by_cases hh : h2 < h1
              · exact hh
              · rw [if_neg hh] at hch
                by_cases hh' : h1 < h2
                · rw [if_pos hh'] at hch
                  exact Ordering.noConfusion hch
                · rw [if_neg hh'] at hch
                  rw [charsCmp_cons_same] at hch
                  rw [charsCmp_append_padNum (by omega) (by omega)] at hch
                  rw [if_neg (by omega), if_neg (by omega)] at hch
                  rw [charsCmp_cons_same] at hch
                  rw [charsCmp_append_padNum (by omega) (by omega)] at hch
                  rw [if_neg (by omega), if_neg (by omega)] at hch
                  rw [charsCmp_refl] at hch
                  exact Ordering.noConfusion hch

theorem canon_parse_lt {t1 t2 : String} {v1 v2 : Int}
    (hc1 : ∃ y mo d h0 : Nat, t1.data = formatCivilN y mo d h0 0 0)
    (hc2 : ∃ y mo d h0 : Nat, t2.data = formatCivilN y mo d h0 0 0)
    (hp1 : parseRFC3339Nanos t1 = some v1)
    (hp2 : parseRFC3339Nanos t2 = some v2)
    (hle : charsCmp t2.data t1.data ≠ .gt) (hne : t1 ≠ t2) : v2 < v1 := by
  obtain ⟨y1, mo1, d1, h1, he1⟩ := hc1
  obtain ⟨y2, mo2, d2, h2, he2⟩ := hc2
  unfold parseRFC3339Nanos at hp1 hp2
  rw [he1] at hp1
  rw [he2] at hp2
  obtain ⟨hy1, hmo1a, hmo1b, hd1a, hd1b, hh1, _, _, hv1⟩ := parse_formatCivilN_inv hp1
  obtain ⟨hy2, hmo2a, hmo2b, hd2a, hd2b, hh2, _, _, hv2⟩ := parse_formatCivilN_inv hp2
  have hlt : charsCmp t2.data t1.data = .lt := by
    cases hcc : charsCmp t2.data t1.data
    · rfl
    · exact absurd (stringDataEq (charsCmp_eq hcc)).symm hne
    · exact absurd hcc hle
  rw [he1, he2] at hlt
  have hd1c : d1 ≤ 31 := by
    have := daysInMonth_le31 (y1 : Int) (mo1 : Int)
    omega
  have hd2c : d2 ≤ 31 := by
    have := daysInMonth_le31 (y2 : Int) (mo2 : Int)
    omega
  have hlex := formatCivilN_lt_lex hy1 hy2 hmo1b hmo2b hd1c hd2c hh1 hh2 hlt
  by_cases hdlex : (y2 : Int) < (y1 : Int) ∨ ((y2 : Int) = (y1 : Int) ∧
      ((mo2 : Int) < (mo1 : Int) ∨ ((mo2 : Int) = (mo1 : Int) ∧ (d2 : Int) < (d1 : Int))))
  · have hdays : daysFromCivil y2 mo2 d2 < daysFromCivil y1 mo1 d1 :=
      daysFromCivil_lt_of_lex (by omega) (by omega) (by omega) hd2b
        (by omega) (by omega) (by omega) hd1b hdlex
    omega
  · have heq : (y2 : Int) = (y1 : Int) ∧ (mo2 : Int) = (mo1 : Int) ∧
        (d2 : Int) = (d1 : Int) ∧ h2 < h1 := by
      rcases hlex with h | ⟨hye, h⟩
      · exact absurd (Or.inl (by omega)) hdlex
      · rcases h with h | ⟨hmoe, h⟩
        · exact absurd (Or.inr ⟨by omega, Or.inl (by omega)⟩) hdlex
        · rcases h with h | ⟨hde, hh⟩
          · exact absurd (Or.inr ⟨by omega, Or.inr ⟨by omega, by omega⟩⟩) hdlex
          · exact ⟨by omega, by omega, by omega, hh⟩
    obtain ⟨hye, hmoe, hde, hh⟩ := heq
    have hdays : daysFromCivil y2 mo2 d2 = daysFromCivil y1 mo1 d1 := by
      rw [hye, hmoe, hde]
    omega


/-! ## The merge postcondition -/

/-- C3 counterexample: two distinct stored blocks sharing the same canonical
hourly time both survive `merge_reports`, so the output is not free of
duplicate block times without assuming the input block times are pairwise
distinct. -/
theorem merge_reports_dup_time_counterexample :
    merge_reports 1748782800000000000 [blkNewW, blkW] [] = some [blkNewW, blkW] ∧
      blkNewW.time = blkW.time ∧ blkNewW ≠ blkW := by
  decide

/-- C3 (amended): if every stored block time is a canonical hourly rendering,
the stored block times are pairwise distinct, and every new report's
`reported_time` parses, then `merge_reports` succeeds and in the result every
block time parses to an instant within the 48-hour retention window, no two
blocks share a time, and the blocks are sorted newest-first by the instant
their time strings denote. -/
theorem merge_reports_invariants {now : Int} {B : List SatelliteDataBlock}
    {R : List AmsatReport}
    (hB1 : ∀ b ∈ B, ∃ y mo d h0 : Nat, b.time.data = formatCivilN y mo d h0 0 0)
    (hB2 : B.Pairwise (fun a b => a.time ≠ b.time))
    (hR : ∀ r ∈ R, (parseRFC3339Nanos r.reported_time).isSome = true) :
    ∃ M, merge_reports now B R = some M ∧
      (∀ b ∈ M, ∃ v, parseRFC3339Nanos b.time = some v ∧
        now - DATA_RETENTION_HOURS * 3600 * 1000000000 ≤ v) ∧
      M.Pairwise (fun a b => a.time ≠ b.time) ∧
      M.Pairwise (fun a b => ∀ va vb, parseRFC3339Nanos a.time = some va →
        parseRFC3339Nanos b.time = some vb → vb < va) := by
  obtain ⟨bkts, hbk⟩ := bucketReports_total hR
  refine ⟨clean_old_reports now (sortBlocks (mergePhase B bkts)), ?_, ?_, ?_, ?_⟩
  · unfold merge_reports
    rw [hbk]
    rfl
  · intro b hb
    exact cleanKeep_elim (mem_clean_keep hb).2
  · refine List.Pairwise.filter _ ?_
    refine (List.Perm.pairwise_iff ?_ (perm_sortByCmp blockCmp _)).mpr
      (mergePhase_pairwise_time hB2)
    intro a b hab
    exact hab.symm
  · have hcanon : ∀ b ∈ clean_old_reports now (sortBlocks (mergePhase B bkts)),
        ∃ y mo d h0 : Nat, b.time.data = formatCivilN y mo d h0 0 0 := by
      intro b hb
      have hb1 := (mem_clean_keep hb).1
      unfold sortBlocks at hb1
      have hb2 : b ∈ mergePhase B bkts := mem_sortByCmp.mp hb1
      rcases mem_mergePhase_time hb2 with ⟨b0, hb0, ht⟩ | ⟨p, hp, ht⟩
      · obtain ⟨y, mo, d, h0, he⟩ := hB1 b0 hb0
        exact ⟨y, mo, d, h0, by rw [ht, he]⟩
      · obtain ⟨s, hs⟩ := bucketReports_keys_canonical hbk p hp
        obtain ⟨y, mo, d, h0, he⟩ := get_time_block_shape hs
        exact ⟨y, mo, d, h0, by rw [ht]; exact he⟩
    have hdis : (clean_old_reports now (sortBlocks (mergePhase B bkts))).Pairwise
        (fun a b => a.time ≠ b.time) := by
      refine List.Pairwise.filter _ ?_
      refine (List.Perm.pairwise_iff ?_ (perm_sortByCmp blockCmp _)).mpr
        (mergePhase_pairwise_time hB2)
      intro a b hab
      exact hab.symm
    have hsort : (clean_old_reports now (sortBlocks (mergePhase B bkts))).Pairwise
        (fun a b => blockCmp a b ≠ .gt) :=
      (pairwise_sortByCmp blockCmp_lawful _).filter _
    refine List.Pairwise.imp_of_mem ?_ (hsort.and hdis)
    intro a b ha hb hab va vb hva hvb
    exact canon_parse_lt (hcanon a ha) (hcanon b hb) hva hvb hab.1 hab.2

theorem merge_reports_invariants_witness :
    ∃ M, merge_reports 1748782800000000000 [blkW] [repW] = some M ∧
      (∀ b ∈ M, ∃ v, parseRFC3339Nanos b.time = some v ∧
        1748782800000000000 - DATA_RETENTION_HOURS * 3600 * 1000000000 ≤ v) ∧
      M.Pairwise (fun a b => a.time ≠ b.time) ∧
      M.Pairwise (fun a b => ∀ va vb, parseRFC3339Nanos a.time = some va →
        parseRFC3339Nanos b.time = some vb → vb < va) :=
  merge_reports_invariants
    (by
      intro b hb
      simp only [List.mem_singleton] at hb
      subst hb
      exact ⟨2025, 6, 1, 12, by decide⟩)
    (by simp)
    (by
      intro r hr
      simp only [List.mem_singleton] at hr
      subst hr
      decide)


/-! ## AMSAT name parsing (`src/rinko-backend/src/module/sat/amsat_types.rs`)

Byte indices coincide with character indices on the ASCII API names, so Rust
slicing and `rfind` are modelled on character lists; `to_uppercase` and
`to_lowercase` are modelled on ASCII letters, the only letters the keyword
table and API names contain. -/

/-- The mode-keyword table (`MODE_KEYWORDS`). -/
def MODE_KEYWORDS : List String :=
  ["FM", "SSTV", "DATA", "DATV", "LINEAR", "LIN", "IMAGE", "IMG",
   "CW", "SSB", "DIGI", "APRS", "PACKET", "V/U", "U/V", "H/U", "V/U FM",
   "L", "S", "X", "A", "B"]

/-- `is_mode_keyword`: case-insensitive membership in the keyword table. -/
def is_mode_keyword (cs : List Char) : Bool :=
  MODE_KEYWORDS.any (fun kw => kw.data == cs.map asciiUpperChar)

/-- Result of `parse_amsat_name`. -/
structure ParsedAmsatName where
  base_name : String
  mode_hint : Option String
deriving DecidableEq

/-- One splitter attempt: take the last occurrence of the separator at `idx`,
optionally strip a trailing close bracket from the right-hand side, trim it,
and succeed iff it is a mode keyword. -/
def splitTry (trimmed : List Char) (idx : Nat) (stripClose : Option Char) :
    Option ParsedAmsatName :=
  let rawCand := trimmed.drop (idx + 1)
  let cand := rustTrimList (match stripClose with
    | some c => trimEndMatchesChar c rawCand
    | none => rawCand)
  if is_mode_keyword cand then
    some { base_name := ⟨rustTrimList (trimmed.take idx)⟩,
           mode_hint := some ⟨cand.map asciiUpperChar⟩ }
  else none

/-- The splitter cascade of `parse_amsat_name`: last space, then last hyphen,
then last `[` (stripping a trailing `]`), then last `(` (stripping a trailing
`)`). -/
def parseCore (trimmed : List Char) : ParsedAmsatName :=
  match (rfindIdx (fun c => c == ' ') trimmed).bind
      (fun i => splitTry trimmed i none) with
  | some r => r
  | none =>
    match (rfindIdx (fun c => c == '-') trimmed).bind
        (fun i => splitTry trimmed i none) with
    | some r => r
    | none =>
      match (rfindIdx (fun c => c == '[') trimmed).bind
          (fun i => splitTry trimmed i (some ']')) with
      | some r => r
      | none =>
        match (rfindIdx (fun c => c == '(') trimmed).bind
            (fun i => splitTry trimmed i (some ')')) with
        | some r => r
        | none => { base_name := ⟨trimmed⟩, mode_hint := none }

/-- `parse_amsat_name` (`amsat_types.rs`). -/
def parse_amsat_name (api_name : String) : ParsedAmsatName :=
  if (rustTrimList api_name.data).isEmpty then { base_name := "", mode_hint := none }
  else parseCore (rustTrimList api_name.data)

/-- The splitters in the order the spec lists them. -/
def specSplitters : List (Char × Option Char) :=
  [(' ', none), ('-', none), ('[', some ']'), ('(', some ')')]

/-- Spec-modelled splitter cascade: try the splitters in order and stop at the
first whose right-hand token is a mode keyword. -/
def specCore (trimmed : List Char) : ParsedAmsatName :=
  match specSplitters.foldl (fun acc p =>
    match acc with
    | some r => some r
    | none => (rfindIdx (fun c => c == p.1) trimmed).bind
        fun i => splitTry trimmed i p.2) none with
  | some r => r
  | none => { base_name := ⟨trimmed⟩, mode_hint := none }

/-- Spec-modelled `parse_amsat_name` built on the splitter list. -/
def specSplitParse (api_name : String) : ParsedAmsatName :=
  if (rustTrimList api_name.data).isEmpty then { base_name := "", mode_hint := none }
  else specCore (rustTrimList api_name.data)

theorem parseCore_eq_specCore (trimmed : List Char) :
    parseCore trimmed = specCore trimmed := by
  unfold parseCore specCore specSplitters
  simp only [List.foldl]
  cases h1 : (rfindIdx (fun c => c == ' ') trimmed).bind
      (fun i => splitTry trimmed i none) with
  | some r => rfl
  | none =>
    cases h2 : (rfindIdx (fun c => c == '-') trimmed).bind
        (fun i => splitTry trimmed i none) with
    | some r => rfl
    | none =>
      cases h3 : (rfindIdx (fun c => c == '[') trimmed).bind
          (fun i => splitTry trimmed i (some ']')) with
      | some r => rfl
      | none =>
        cases h4 : (rfindIdx (fun c => c == '(') trimmed).bind
            (fun i => splitTry trimmed i (some ')')) with
        | some r => rfl
        | none => rfl

/-- C1: `parse_amsat_name` tries the splitters in order — last space, last
hyphen, last `[` stripping a trailing `]`, last `(` stripping a trailing `)` —
stops at the first splitter whose right-hand token is a mode keyword
(case-insensitively) and returns the trimmed left part with the uppercased
keyword; if no splitter matches it returns the whole trimmed name with no mode
hint.  In particular `ISS-FM` parses to `(ISS, some FM)`, `AO-91` to
`(AO-91, none)`, `FO-118[H/u]` to `(FO-118, some H/U)` and `TEVEL-1` to
`(TEVEL-1, none)`. -/
theorem parse_amsat_name_spec :
    (∀ s, parse_amsat_name s = specSplitParse s) ∧
      parse_amsat_name "ISS-FM" = ⟨"ISS", some "FM"⟩ ∧
      parse_amsat_name "AO-91" = ⟨"AO-91", none⟩ ∧
      parse_amsat_name "FO-118[H/u]" = ⟨"FO-118", some "H/U"⟩ ∧
      parse_amsat_name "TEVEL-1" = ⟨"TEVEL-1", none⟩ := by
  refine ⟨?_, by decide, by decide, by decide, by decide⟩
  intro s
  unfold parse_amsat_name specSplitParse
  rw [parseCore_eq_specCore]

/-! ## AMSAT entry search (`manager.rs`)

Only the fields the search consults are modelled on `AmsatEntry`; the search
clones entries into results without reading the others.  `f64` scores are
modelled as exact rationals, and the Jaro-Winkler similarity of the
unreachable fuzzy phase is an uninterpreted parameter `jw`. -/

/-- `generate_aliases` (`amsat_types.rs`). -/
def generate_aliases (api_name : String) : List String :=
  let trimmed := rustTrimList api_name.data
  let no_sep := trimmed.filter (fun c => !(isAsciiPunct c) && !(rustIsWhitespace c))
  let a1 : List String := if !no_sep.isEmpty && no_sep ≠ trimmed then [⟨no_sep⟩] else []
  let spaces := trimmed.map (fun c => if c == '-' then ' ' else c)
  let a2 := if spaces ≠ trimmed && ⟨spaces⟩ ∉ a1 then a1 ++ [⟨spaces⟩] else a1
  let hyphens := trimmed.map (fun c => if c == ' ' then '-' else c)
  if hyphens ≠ trimmed && ⟨hyphens⟩ ∉ a2 then a2 ++ [⟨hyphens⟩] else a2

/-- `normalize_for_search`: trim, lowercase, drop ASCII punctuation and
whitespace. -/
def normalize_for_search (s : String) : List Char :=
  ((rustTrimList s.data).map asciiLowerChar).filter
    (fun c => !(isAsciiPunct c) && !(rustIsWhitespace c))

/-- Search-relevant fields of `AmsatEntry`. -/
structure AmsatEntry where
  api_name : String
  aliases : List String
  satellite_base_name : String
  mode_hint : Option String
deriving DecidableEq

/-- `AmsatEntry::from_api_name`. -/
def from_api_name (api_name : String) : AmsatEntry :=
  { api_name := api_name
    aliases := generate_aliases api_name
    satellite_base_name := (parse_amsat_name api_name).base_name
    mode_hint := (parse_amsat_name api_name).mode_hint }

/-- `AmsatMatchType` (`manager.rs`). -/
inductive AmsatMatchType where
  | ExactApiName
  | BaseName
  | Contains
  | Fuzzy
deriving DecidableEq

/-- `AmsatSearchResult` with the score as an exact rational. -/
structure AmsatSearchResult where
  entry : AmsatEntry
  match_type : AmsatMatchType
  score : ℚ
deriving DecidableEq

/-- `f64::min` on exact rationals (no score here is a NaN). -/
def qMin (a b : ℚ) : ℚ := if Rat.blt b a then b else a

/-- Rust `str::contains` on character lists. -/
def listContains (big small : List Char) : Bool :=
  (List.range (big.length + 1)).any fun i => small.isPrefixOf (big.drop i)

/-- `exact_match_amsat`: exact on normalised API name (1.0) or alias (0.99). -/
def exact_match_amsat (entry : AmsatEntry) (qn : List Char) :
    Option AmsatSearchResult :=
  if normalize_for_search entry.api_name == qn then
    some ⟨entry, .ExactApiName, mkRat 1 1⟩
  else
    match entry.aliases.find? (fun al => normalize_for_search al == qn) with
    | some _ => some ⟨entry, .ExactApiName, mkRat 99 100⟩
    | none => none

/-- `base_name_match`: equality on the normalised base name, score 0.95. -/
def base_name_match (entry : AmsatEntry) (qn : List Char) :
    Option AmsatSearchResult :=
  if normalize_for_search entry.satellite_base_name == qn then
    some ⟨entry, .BaseName, mkRat 95 100⟩
  else none

/-- `contains_match`: substring either way on the normalised API name (capped
at 0.90, or 0.98 when both sides contain `fm`), else on an alias (capped at
0.89). -/
def contains_match (entry : AmsatEntry) (qn : List Char) :
    Option AmsatSearchResult :=
  let an := normalize_for_search entry.api_name
  if listContains an qn || listContains qn an then
    if listContains an ['f', 'm'] && listContains qn ['f', 'm'] then
      some ⟨entry, .Contains, mkRat 98 100⟩
    else
      some ⟨entry, .Contains, qMin (mkRat qn.length (max an.length 1)) (mkRat 90 100)⟩
  else
    match entry.aliases.find? (fun al =>
        listContains (normalize_for_search al) qn ||
        listContains qn (normalize_for_search al)) with
    | some al =>
      some ⟨entry, .Contains,
        qMin (mkRat qn.length (max (normalize_for_search al).length 1)) (mkRat 89 100)⟩
    | none => none

/-- `fuzzy_match_amsat` with the Jaro-Winkler similarity `jw` as a parameter:
first similarity above threshold among API name, aliases, base name. -/
def fuzzy_match_amsat (jw : List Char → List Char → ℚ) (threshold : ℚ)
    (entry : AmsatEntry) (qn : List Char) : Option AmsatSearchResult :=
  if !Rat.blt (jw (normalize_for_search entry.api_name) qn) threshold then
    some ⟨entry, .Fuzzy, jw (normalize_for_search entry.api_name) qn⟩
  else
    match entry.aliases.find? (fun al =>
        !Rat.blt (jw (normalize_for_search al) qn) threshold) with
    | some al => some ⟨entry, .Fuzzy, jw (normalize_for_search al) qn⟩
    | none =>
      if !Rat.blt (jw (normalize_for_search entry.satellite_base_name) qn) threshold then
        some ⟨entry, .Fuzzy, jw (normalize_for_search entry.satellite_base_name) qn⟩
      else none

/-- Total order used by `sort_by(|a, b| b.score.partial_cmp(&a.score))`. -/
def resultCmp (a b : AmsatSearchResult) : Ordering :=
  if Rat.blt b.score a.score then .lt
  else if Rat.blt a.score b.score then .gt else .eq

/-- `search_amsat_entries`: four phases, each returning its sorted results if
non-empty. -/
def search_amsat_entries (jw : List Char → List Char → ℚ) (threshold : ℚ)
    (query : String) (entries : List AmsatEntry) : List AmsatSearchResult :=
  let qn := normalize_for_search query
  if qn.isEmpty then []
  else
    let r1 := entries.filterMap (fun e => exact_match_amsat e qn)
    if !r1.isEmpty then sortByCmp resultCmp r1
    else
      let r2 := entries.filterMap (fun e => base_name_match e qn)
      if !r2.isEmpty then sortByCmp resultCmp r2
      else
        let r3 := entries.filterMap (fun e => contains_match e qn)
        if !r3.isEmpty then sortByCmp resultCmp r3
        else
          sortByCmp resultCmp
            (entries.filterMap (fun e => fuzzy_match_amsat jw threshold e qn))

/-- C2: on the entry store built from the eight API names, searching `iss`
finds no exact match in phase 1 and returns from phase 2 exactly the four
`ISS-*` entries, each a `BaseName` match with score 0.95, for every fuzzy
similarity function and threshold (the fuzzy phase is not reached). -/
theorem search_amsat_entries_iss (jw : List Char → List Char → ℚ) (threshold : ℚ) :
    search_amsat_entries jw threshold "iss"
      (["ISS-FM", "ISS-SSTV", "ISS-DATA", "ISS-DATV", "AO-91", "AO-92", "RS-44",
        "FO-118[H/u]"].map from_api_name) =
      [⟨from_api_name "ISS-FM", .BaseName, mkRat 95 100⟩,
       ⟨from_api_name "ISS-SSTV", .BaseName, mkRat 95 100⟩,
       ⟨from_api_name "ISS-DATA", .BaseName, mkRat 95 100⟩,
       ⟨from_api_name "ISS-DATV", .BaseName, mkRat 95 100⟩] := by
  rfl


/-! ## AMSAT worker scheduling (`src/rinko-backend/src/module/scheduled.rs`)

Instants are nanoseconds since the Unix epoch; the chrono field accessors and
`with_*` setters on a UTC `DateTime` are the evident arithmetic (UTC has no
offset changes).  The unused `_interval_minutes` parameter is dropped. -/

/-- chrono `minute()` of an instant. -/
def minuteOfInstant (n : Int) : Int := n / 1000000000 / 60 % 60

/-- chrono `second()` of an instant. -/
def secondOfInstant (n : Int) : Int := n / 1000000000 % 60

/-- chrono `nanosecond()` of an instant. -/
def nanoOfInstant (n : Int) : Int := n % 1000000000

/-- chrono `hour()` of an instant. -/
def hourOfInstant (n : Int) : Int := n / 1000000000 / 3600 % 24

/-- chrono `with_minute` on a UTC instant. -/
def withMinute (n m : Int) : Int := n + (m - minuteOfInstant n) * 60 * 1000000000

/-- chrono `with_second` on a UTC instant. -/
def withSecond (n s : Int) : Int := n + (s - secondOfInstant n) * 1000000000

/-- chrono `with_nanosecond` on a UTC instant. -/
def withNanosecond (n ns : Int) : Int := n + (ns - nanoOfInstant n)

/-- chrono `with_hour` on a UTC instant. -/
def withHour (n h : Int) : Int := n + (h - hourOfInstant n) * 3600 * 1000000000

/-- The AMSAT worker's target minutes. -/
def target_minutes : List Int := [2, 17, 32, 47]

/-- `calculate_next_update_time` (`scheduled.rs`): first target minute after
the current one in this hour, else minute 02 of the next hour. -/
def calculate_next_update_time (now : Int) : Int :=
  match target_minutes.find? (fun t => decide (minuteOfInstant now < t)) with
  | some target => withNanosecond (withSecond (withMinute now target) 0) 0
  | none =>
    withNanosecond (withSecond (withMinute
      (if hourOfInstant now == 23 then now + 3600 * 1000000000
       else withHour now (hourOfInstant now + 1)) 2) 0) 0

/-- Start of the hour containing an instant. -/
def floorHourInstant (n : Int) : Int := n - n % 3600000000000

/-- Spec-modelled next trigger: the smallest of 02, 17, 32, 47 strictly after
the current minute, as a minute of the current hour with seconds and
subseconds zeroed; otherwise minute 02 of the following hour. -/
def specNextUpdate (n : Int) : Int :=
  if minuteOfInstant n < 2 then floorHourInstant n + 2 * 60000000000
  else if minuteOfInstant n < 17 then floorHourInstant n + 17 * 60000000000
  else if minuteOfInstant n < 32 then floorHourInstant n + 32 * 60000000000
  else if minuteOfInstant n < 47 then floorHourInstant n + 47 * 60000000000
  else floorHourInstant n + 3600000000000 + 2 * 60000000000

theorem calculate_next_update_time_eq_spec (n : Int) :
    calculate_next_update_time n = specNextUpdate n := by
  unfold calculate_next_update_time specNextUpdate target_minutes floorHourInstant
    withMinute withSecond withNanosecond withHour minuteOfInstant secondOfInstant
    nanoOfInstant hourOfInstant
  simp only [List.find?]
  by_cases h2 : n / 1000000000 / 60 % 60 < 2 <;>
    by_cases h17 : n / 1000000000 / 60 % 60 < 17 <;>
    by_cases h32 : n / 1000000000 / 60 % 60 < 32 <;>
    by_cases h47 : n / 1000000000 / 60 % 60 < 47 <;>
    by_cases h23 : n / 1000000000 / 3600 % 24 = 23 <;>
    simp [h2, h17, h32, h47, h23] <;>
    omega

/-- C7: for every instant, the AMSAT worker's next trigger is the smallest of
minutes 02, 17, 32, 47 strictly after the current minute, taken in the current
hour with seconds and subseconds zeroed, or minute 02 of the following hour
when none remains (23:xx rolls over to 00:02 of the next day).  In particular
at 2025-06-01T13:50:00Z the trigger is 14:02:00 and at 13:00:00Z it is
13:02:00. -/
theorem calculate_next_update_time_spec :
    (∀ n : Int, calculate_next_update_time n = specNextUpdate n) ∧
      calculate_next_update_time 1748785800000000000 = 1748786520000000000 ∧
      calculate_next_update_time 1748782800000000000 = 1748782920000000000 :=
  ⟨calculate_next_update_time_eq_spec, by decide, by decide⟩


/-! ## LoTW latency parsing (`src/rinko-backend/src/module/lotw/parser.rs`)

Cells are ASCII, so Rust byte indices are character indices.  `u64` parsing
rejects values of 2^64 or more (yielding 0 through `unwrap_or`); the leading
`+` that Rust's `u64::from_str` would also accept never occurs in these
cells.  Additions and multiplications wrap at 2^64 as in release-mode Rust. -/

/-- `LotwQueueSnapshot::BAD_LATENCY_SECS`. -/
def BAD_LATENCY_SECS : Nat := 10 * 60

/-- Wrapping `u64` multiplication. -/
def u64Mul (a b : Nat) : Nat := a * b % 2 ^ 64

/-- Wrapping `u64` addition. -/
def u64Add (a b : Nat) : Nat := (a + b) % 2 ^ 64

/-- `str::parse::<u64>().unwrap_or(0)`: digit run below 2^64, else 0. -/
def u64FromChars (cs : List Char) : Nat :=
  if cs.isEmpty || !cs.all isAsciiDigitChar then 0
  else if cs.foldl (fun a c => a * 10 + (c.toNat - 48)) 0 < 2 ^ 64 then
    cs.foldl (fun a c => a * 10 + (c.toNat - 48)) 0
  else 0

/-- The `days` component of `parse_latency_secs`: the token before the first
`d`, after the last space of its trimmed form (whole slice if no space). -/
def latencyDays (text : List Char) : Nat :=
  match findIdxOpt (fun c => c == 'd') text with
  | some pos =>
    let btrim := rustTrimList (text.take pos)
    let sl := match rfindIdx (fun c => c == ' ') btrim with
      | some i => btrim.drop (i + 1)
      | none => text.take pos
    u64Mul (u64FromChars (rustTrimList sl)) 86400
  | none => 0

/-- A `hours`/`minutes`/`seconds` component of `parse_latency_secs`: the slice
between one past the last space-or-`prev` before the first `unit` and that
`unit` (start index 1 when no separator is found, as in the source's
`unwrap_or(0) + 1`). -/
def latencyField (unit prev : Char) (factor : Nat) (text : List Char) : Nat :=
  match findIdxOpt (fun c => c == unit) text with
  | some pos =>
    let start := (match rfindIdx (fun c => c == ' ' || c == prev) (text.take pos) with
      | some i => i
      | none => 0) + 1
    u64Mul (u64FromChars (rustTrimList ((text.take pos).drop start))) factor
  | none => 0

/-- `parse_latency_secs` (`parser.rs`). -/
def parse_latency_secs (text0 : List Char) : Nat :=
  let text := rustTrimList (trimMatchesList (fun c => c == '(' || c == ')') text0)
  u64Add (u64Add (u64Add (latencyDays text) (latencyField 'h' 'd' 3600 text))
    (latencyField 'm' 'h' 60 text)) (latencyField 's' 'm' 1 text)

/-- The `latency_bad` flag computed for a row (`parse_lotw_html`). -/
def latencyBad (text : List Char) : Bool :=
  decide (parse_latency_secs text > BAD_LATENCY_SECS)

/-- `split_processing_cell` (`parser.rs`): cells longer than 19 characters
split into the 19-character timestamp and the trimmed, paren-stripped rest. -/
def split_processing_cell (raw : String) : String × String :=
  if raw.data.length > 19 then
    (⟨raw.data.take 19⟩,
     ⟨rustTrimList (trimMatchesList (fun c => c == '(' || c == ')')
       (rustTrimList (raw.data.drop 19)))⟩)
  else (raw, "")

/-- A latency cell of the shape `Xd YYh ZZm WWs ago`. -/
def latencyChars (d h m s : Nat) : List Char :=
  [digitChar d, 'd', ' ', digitChar (h / 10), digitChar (h % 10), 'h', ' ',
   digitChar (m / 10), digitChar (m % 10), 'm', ' ',
   digitChar (s / 10), digitChar (s % 10), 's', ' ', 'a', 'g', 'o']

theorem digit_char_facts {k : Nat} (hk : k ≤ 9) :
    isAsciiDigitChar (digitChar k) = true ∧
    rustIsWhitespace (digitChar k) = false ∧
    ((digitChar k == 'd') = false) ∧ ((digitChar k == 'h') = false) ∧
    ((digitChar k == 'm') = false) ∧ ((digitChar k == 's') = false) ∧
    ((digitChar k == ' ') = false) ∧ ((digitChar k == '(') = false) ∧
    ((digitChar k == ')') = false) := by
  interval_cases k <;> exact (by decide)

theorem u64FromChars_one {a : Nat} (ha : a ≤ 9) :
    u64FromChars [digitChar a] = a := by
  interval_cases a <;> decide

theorem u64FromChars_two {a b : Nat} (ha : a ≤ 9) (hb : b ≤ 9) :
    u64FromChars [digitChar a, digitChar b] = 10 * a + b := by
  interval_cases a <;> interval_cases b <;> decide

theorem parse_latency_shape {d h m s : Nat} (hd : d ≤ 9) (hh : h ≤ 99)
    (hm : m ≤ 99) (hs : s ≤ 99) :
    parse_latency_secs (latencyChars d h m s) = d * 86400 + h * 3600 + m * 60 + s := by
  have hd9 : d ≤ 9 := hd
  have hh1 : h / 10 ≤ 9 := by omega
  have hh2 : h % 10 ≤ 9 := by omega
  have hm1 : m / 10 ≤ 9 := by omega
  have hm2 : m % 10 ≤ 9 := by omega
  have hs1 : s / 10 ≤ 9 := by omega
  have hs2 : s % 10 ≤ 9 := by omega
  have fw_d : rustIsWhitespace (digitChar (d)) = false := (digit_char_facts hd9).2.1
  have fg_d : isAsciiDigitChar (digitChar (d)) = true := (digit_char_facts hd9).1
  have fd_d : (digitChar (d) == 'd') = false := (digit_char_facts hd9).2.2.1
  have fh_d : (digitChar (d) == 'h') = false := (digit_char_facts hd9).2.2.2.1
  have fm_d : (digitChar (d) == 'm') = false := (digit_char_facts hd9).2.2.2.2.1
  have fs_d : (digitChar (d) == 's') = false := (digit_char_facts hd9).2.2.2.2.2.1
  have fsp_d : (digitChar (d) == ' ') = false := (digit_char_facts hd9).2.2.2.2.2.2.1
  have fop_d : (digitChar (d) == '(') = false := (digit_char_facts hd9).2.2.2.2.2.2.2.1
  have fcp_d : (digitChar (d) == ')') = false := (digit_char_facts hd9).2.2.2.2.2.2.2.2
  have fw_h1 : rustIsWhitespace (digitChar (h / 10)) = false := (digit_char_facts hh1).2.1
  have fg_h1 : isAsciiDigitChar (digitChar (h / 10)) = true := (digit_char_facts hh1).1
  have fd_h1 : (digitChar (h / 10) == 'd') = false := (digit_char_facts hh1).2.2.1
  have fh_h1 : (digitChar (h / 10) == 'h') = false := (digit_char_facts hh1).2.2.2.1
  have fm_h1 : (digitChar (h / 10) == 'm') = false := (digit_char_facts hh1).2.2.2.2.1
  have fs_h1 : (digitChar (h / 10) == 's') = false := (digit_char_facts hh1).2.2.2.2.2.1
  have fsp_h1 : (digitChar (h / 10) == ' ') = false := (digit_char_facts hh1).2.2.2.2.2.2.1
  have fop_h1 : (digitChar (h / 10) == '(') = false := (digit_char_facts hh1).2.2.2.2.2.2.2.1
  have fcp_h1 : (digitChar (h / 10) == ')') = false := (digit_char_facts hh1).2.2.2.2.2.2.2.2
  have fw_h2 : rustIsWhitespace (digitChar (h % 10)) = false := (digit_char_facts hh2).2.1
  have fg_h2 : isAsciiDigitChar (digitChar (h % 10)) = true := (digit_char_facts hh2).1
  have fd_h2 : (digitChar (h % 10) == 'd') = false := (digit_char_facts hh2).2.2.1
  have fh_h2 : (digitChar (h % 10) == 'h') = false := (digit_char_facts hh2).2.2.2.1
  have fm_h2 : (digitChar (h % 10) == 'm') = false := (digit_char_facts hh2).2.2.2.2.1
  have fs_h2 : (digitChar (h % 10) == 's') = false := (digit_char_facts hh2).2.2.2.2.2.1
  have fsp_h2 : (digitChar (h % 10) == ' ') = false := (digit_char_facts hh2).2.2.2.2.2.2.1
  have fop_h2 : (digitChar (h % 10) == '(') = false := (digit_char_facts hh2).2.2.2.2.2.2.2.1
  have fcp_h2 : (digitChar (h % 10) == ')') = false := (digit_char_facts hh2).2.2.2.2.2.2.2.2
  have fw_m1 : rustIsWhitespace (digitChar (m / 10)) = false := (digit_char_facts hm1).2.1
  have fg_m1 : isAsciiDigitChar (digitChar (m / 10)) = true := (digit_char_facts hm1).1
  have fd_m1 : (digitChar (m / 10) == 'd') = false := (digit_char_facts hm1).2.2.1
  have fh_m1 : (digitChar (m / 10) == 'h') = false := (digit_char_facts hm1).2.2.2.1
  have fm_m1 : (digitChar (m / 10) == 'm') = false := (digit_char_facts hm1).2.2.2.2.1
  have fs_m1 : (digitChar (m / 10) == 's') = false := (digit_char_facts hm1).2.2.2.2.2.1
  have fsp_m1 : (digitChar (m / 10) == ' ') = false := (digit_char_facts hm1).2.2.2.2.2.2.1
  have fop_m1 : (digitChar (m / 10) == '(') = false := (digit_char_facts hm1).2.2.2.2.2.2.2.1
  have fcp_m1 : (digitChar (m / 10) == ')') = false := (digit_char_facts hm1).2.2.2.2.2.2.2.2
  have fw_m2 : rustIsWhitespace (digitChar (m % 10)) = false := (digit_char_facts hm2).2.1
  have fg_m2 : isAsciiDigitChar (digitChar (m % 10)) = true := (digit_char_facts hm2).1
  have fd_m2 : (digitChar (m % 10) == 'd') = false := (digit_char_facts hm2).2.2.1
  have fh_m2 : (digitChar (m % 10) == 'h') = false := (digit_char_facts hm2).2.2.2.1
  have fm_m2 : (digitChar (m % 10) == 'm') = false := (digit_char_facts hm2).2.2.2.2.1
  have fs_m2 : (digitChar (m % 10) == 's') = false := (digit_char_facts hm2).2.2.2.2.2.1
  have fsp_m2 : (digitChar (m % 10) == ' ') = false := (digit_char_facts hm2).2.2.2.2.2.2.1
  have fop_m2 : (digitChar (m % 10) == '(') = false := (digit_char_facts hm2).2.2.2.2.2.2.2.1
  have fcp_m2 : (digitChar (m % 10) == ')') = false := (digit_char_facts hm2).2.2.2.2.2.2.2.2
  have fw_s1 : rustIsWhitespace (digitChar (s / 10)) = false := (digit_char_facts hs1).2.1
  have fg_s1 : isAsciiDigitChar (digitChar (s / 10)) = true := (digit_char_facts hs1).1
  have fd_s1 : (digitChar (s / 10) == 'd') = false := (digit_char_facts hs1).2.2.1
  have fh_s1 : (digitChar (s / 10) == 'h') = false := (digit_char_facts hs1).2.2.2.1
  have fm_s1 : (digitChar (s / 10) == 'm') = false := (digit_char_facts hs1).2.2.2.2.1
  have fs_s1 : (digitChar (s / 10) == 's') = false := (digit_char_facts hs1).2.2.2.2.2.1
  have fsp_s1 : (digitChar (s / 10) == ' ') = false := (digit_char_facts hs1).2.2.2.2.2.2.1
  have fop_s1 : (digitChar (s / 10) == '(') = false := (digit_char_facts hs1).2.2.2.2.2.2.2.1
  have fcp_s1 : (digitChar (s / 10) == ')') = false := (digit_char_facts hs1).2.2.2.2.2.2.2.2
  have fw_s2 : rustIsWhitespace (digitChar (s % 10)) = false := (digit_char_facts hs2).2.1
  have fg_s2 : isAsciiDigitChar (digitChar (s % 10)) = true := (digit_char_facts hs2).1
  have fd_s2 : (digitChar (s % 10) == 'd') = false := (digit_char_facts hs2).2.2.1
  have fh_s2 : (digitChar (s % 10) == 'h') = false := (digit_char_facts hs2).2.2.2.1
  have fm_s2 : (digitChar (s % 10) == 'm') = false := (digit_char_facts hs2).2.2.2.2.1
  have fs_s2 : (digitChar (s % 10) == 's') = false := (digit_char_facts hs2).2.2.2.2.2.1
  have fsp_s2 : (digitChar (s % 10) == ' ') = false := (digit_char_facts hs2).2.2.2.2.2.2.1
  have fop_s2 : (digitChar (s % 10) == '(') = false := (digit_char_facts hs2).2.2.2.2.2.2.2.1
  have fcp_s2 : (digitChar (s % 10) == ')') = false := (digit_char_facts hs2).2.2.2.2.2.2.2.2
  have e1 : u64FromChars [digitChar d] = d := u64FromChars_one hd9
  have e2 : u64FromChars [digitChar (h / 10), digitChar (h % 10)] = 10 * (h / 10) + h % 10 :=
    u64FromChars_two hh1 hh2
  have e3 : u64FromChars [digitChar (m / 10), digitChar (m % 10)] = 10 * (m / 10) + m % 10 :=
    u64FromChars_two hm1 hm2
  have e4 : u64FromChars [digitChar (s / 10), digitChar (s % 10)] = 10 * (s / 10) + s % 10 :=
    u64FromChars_two hs1 hs2
  have h64 : (2 : Nat) ^ 64 = 18446744073709551616 := by norm_num
  unfold parse_latency_secs latencyChars latencyDays latencyField
  simp only [trimMatchesList, rustTrimList, trimStartList, trimEndList, findIdxOpt,
    rfindIdx, List.dropWhile, List.reverse_cons, List.reverse_nil, List.nil_append,
    List.cons_append, List.findIdx?, List.take, List.drop, List.length,
    fw_d, fg_d, fd_d, fh_d, fm_d, fs_d, fsp_d, fop_d, fcp_d, fw_h1, fg_h1, fd_h1, fh_h1, fm_h1, fs_h1, fsp_h1, fop_h1, fcp_h1, fw_h2, fg_h2, fd_h2, fh_h2, fm_h2, fs_h2, fsp_h2, fop_h2, fcp_h2, fw_m1, fg_m1, fd_m1, fh_m1, fm_m1, fs_m1, fsp_m1, fop_m1, fcp_m1, fw_m2, fg_m2, fd_m2, fh_m2, fm_m2, fs_m2, fsp_m2, fop_m2, fcp_m2, fw_s1, fg_s1, fd_s1, fh_s1, fm_s1, fs_s1, fsp_s1, fop_s1, fcp_s1, fw_s2, fg_s2, fd_s2, fh_s2, fm_s2, fs_s2, fsp_s2, fop_s2, fcp_s2, Bool.false_or, Bool.or_false, Bool.or_true, Bool.true_or,
    e1, e2, e3, e4, u64Mul, u64Add, h64]
  simp [List.findIdx?, List.take, List.drop, fw_d, fg_d, fd_d, fh_d, fm_d, fs_d, fsp_d, fop_d, fcp_d, fw_h1, fg_h1, fd_h1, fh_h1, fm_h1, fs_h1, fsp_h1, fop_h1, fcp_h1, fw_h2, fg_h2, fd_h2, fh_h2, fm_h2, fs_h2, fsp_h2, fop_h2, fcp_h2, fw_m1, fg_m1, fd_m1, fh_m1, fm_m1, fs_m1, fsp_m1, fop_m1, fcp_m1, fw_m2, fg_m2, fd_m2, fh_m2, fm_m2, fs_m2, fsp_m2, fop_m2, fcp_m2, fw_s1, fg_s1, fd_s1, fh_s1, fm_s1, fs_s1, fsp_s1, fop_s1, fcp_s1, fw_s2, fg_s2, fd_s2, fh_s2, fm_s2, fs_s2, fsp_s2, fop_s2, fcp_s2, e1, e2, e3, e4,
    u64Mul, u64Add, h64]
  omega

/-- C8: a LoTW fifth cell longer than 19 characters splits at character 19
into the processing timestamp and the paren-stripped latency text; a latency
text `Xd YYh ZZm WWs ago` parses to `d*86400 + h*3600 + m*60 + s` seconds and
the row's `latency_bad` flag is set iff that value exceeds
`BAD_LATENCY_SECS = 600`.  In particular `0d 00h 09m 21s ago` gives 561 s
(not bad) and `0d 00h 20m 00s ago` gives 1200 s (bad). -/
theorem lotw_latency_spec {d h m s : Nat} (hd : d ≤ 9) (hh : h ≤ 99)
    (hm : m ≤ 99) (hs : s ≤ 99) :
    parse_latency_secs (latencyChars d h m s) = d * 86400 + h * 3600 + m * 60 + s ∧
      (latencyBad (latencyChars d h m s) = true ↔
        d * 86400 + h * 3600 + m * 60 + s > 600) ∧
      split_processing_cell "2026-02-18 04:58:03 (0d 00h 09m 21s ago)" =
        ("2026-02-18 04:58:03", "0d 00h 09m 21s ago") ∧
      parse_latency_secs "0d 00h 09m 21s ago".data = 561 ∧
      latencyBad "0d 00h 09m 21s ago".data = false ∧
      parse_latency_secs "0d 00h 20m 00s ago".data = 1200 ∧
      latencyBad "0d 00h 20m 00s ago".data = true := by
  have h1 := parse_latency_shape hd hh hm hs
  refine ⟨h1, ?_, by decide, by decide, by decide, by decide, by decide⟩
  unfold latencyBad BAD_LATENCY_SECS
  rw [h1]
  simp

theorem lotw_latency_spec_witness :
    parse_latency_secs (latencyChars 0 0 9 21) = 0 * 86400 + 0 * 3600 + 9 * 60 + 21 ∧
      (latencyBad (latencyChars 0 0 9 21) = true ↔
        0 * 86400 + 0 * 3600 + 9 * 60 + 21 > 600) ∧
      split_processing_cell "2026-02-18 04:58:03 (0d 00h 09m 21s ago)" =
        ("2026-02-18 04:58:03", "0d 00h 09m 21s ago") ∧
      parse_latency_secs "0d 00h 09m 21s ago".data = 561 ∧
      latencyBad "0d 00h 09m 21s ago".data = false ∧
      parse_latency_secs "0d 00h 20m 00s ago".data = 1200 ∧
      latencyBad "0d 00h 20m 00s ago".data = true :=
  lotw_latency_spec (by decide) (by decide) (by decide) (by decide)


/-! ## Satellite-list scraping in the update cycle
(`src/rinko-backend/src/module/sat/manager.rs`,
`src/rinko-backend/src/model/sat/scraper.rs`)

The scrape outcome is passed in as an `Except` value standing for
`scrape_satellite_list()`; `scrape_satellite_list` wraps each scraped name
unchanged, so on names it is the identity. -/

/-- Step 1 of `update_all_satellites` (`module/sat/manager.rs`): the scraped
name list passes through `?`, so an error aborts the whole update and an empty
list is used as-is. -/
def update_all_satellites_names (scrape : Except String (List String)) :
    Except String (List String) :=
  match scrape with
  | .ok names => .ok names
  | .error e => .error e

/-- `get_known_satellites` (`model/sat/scraper.rs`): the hard-coded baseline
list. -/
def get_known_satellites : List String :=
  ["AISAT-1", "AO-123", "AO-16", "AO-27", "AO-73", "AO-7[A]", "AO-7[B]",
   "AO-85", "AO-91", "CAS-2T", "CAS-4A", "CAS-4B", "CatSat", "CUTE-1",
   "DSTAR1", "DUCHIFAT1", "DUCHIFAT3", "EO-79", "EO-80", "ESEO",
   "FloripaSat-1", "FO-118[H/u]", "FO-118[V/u+FM]", "FO-118[V/u]",
   "FO-29", "FO-99", "GO-32", "HA-1", "HO-107", "HO-113", "IO-117",
   "IO-26", "IO-86", "ISS-DATA", "ISS-DATV", "ISS-FM", "ISS-SSTV",
   "JO-97", "K2SAT", "LEDSAT", "LilacSat-2", "LO-19", "LO-87", "LO-90",
   "LO-93", "MO-122", "NO-44", "NO-45", "OUFTI-1", "PO-101[FM]",
   "QO-100", "RS-44", "RS95s", "SO-50", "SO-124", "SO-125"]

/-- `fetch_satellite_names_with_fallback` (`model/sat/scraper.rs`, called by
nothing in the crate): baseline list on error or empty scrape. -/
def fetch_satellite_names_with_fallback (scrape : Except String (List String)) :
    List String :=
  match scrape with
  | .ok names => if names.isEmpty then get_known_satellites else names
  | .error _ => get_known_satellites

/-- C9: the update cycle has no fallback — a scraper error propagates through
`?` and fails the update, and an empty scraped list is used as-is — whereas
the unused helper `fetch_satellite_names_with_fallback` would substitute the
non-empty hard-coded baseline in both situations. -/
theorem update_all_satellites_no_fallback :
    update_all_satellites_names (.error "scrape failed") = .error "scrape failed" ∧
      update_all_satellites_names (.ok []) = .ok [] ∧
      fetch_satellite_names_with_fallback (.error "scrape failed") =
        get_known_satellites ∧
      fetch_satellite_names_with_fallback (.ok []) = get_known_satellites ∧
      get_known_satellites ≠ [] := by
  refine ⟨rfl, rfl, rfl, rfl, ?_⟩
  intro h
  exact List.noConfusion h

/-! ## Message routing and the media-server gate
(`src/rinko-backend/src/module/handler.rs`)

The handler's effects are abstracted into an environment: the configuration's
`media_server_url` field, the status of the one `GET https://{url}/health`
request (`none` = transport error), image-cache file existence, the AMSAT
search results for the query, and whether rendering succeeds.  Responses keep
the fields the claims concern (`success`, `content_type`); message text and
UUIDs are dropped. -/

/-- `ContentType` (protobuf). -/
inductive ContentType where
  | Text
  | Image
deriving DecidableEq

/-- `MessageResponse`, reduced to `success` and `content_type`. -/
structure MessageResponse where
  success : Bool
  content_type : ContentType
deriving DecidableEq

/-- The handler's environment. -/
structure MediaEnv where
  media_server_url : Option (Option String)
  healthStatus : Option Nat
  dxwExists : Bool
  lotwExists : Bool
  qo100Exists : Bool
  searchResults : List AmsatSearchResult
  renderOk : Bool
deriving DecidableEq

/-- `StatusCode::is_success`: 2xx. -/
def statusIsSuccess (code : Nat) : Bool := 200 ≤ code && code < 300

/-- `is_media_server_running` (`handler.rs`): false without configuration or
`media_server_url`; otherwise whether `/health` answered 2xx. -/
def is_media_server_running (env : MediaEnv) : Bool :=
  match env.media_server_url with
  | some (some _) =>
    match env.healthStatus with
    | some code => statusIsSuccess code
    | none => false
  | some none => false
  | none => false

/-- `MessageHandler::amsat_query`. -/
def amsat_query (env : MediaEnv) (query : String) : MessageResponse :=
  if !is_media_server_running env then ⟨false, .Text⟩
  else if (rustTrim query).data.isEmpty then ⟨false, .Text⟩
  else if env.searchResults.isEmpty then ⟨false, .Text⟩
  else if env.renderOk then ⟨true, .Image⟩
  else ⟨true, .Text⟩

/-- `MessageHandler::lotw_query`. -/
def lotw_query (env : MediaEnv) : MessageResponse :=
  if env.lotwExists && is_media_server_running env then ⟨true, .Image⟩
  else ⟨false, .Text⟩

/-- `MessageHandler::qo100_query`. -/
def qo100_query (env : MediaEnv) : MessageResponse :=
  if env.qo100Exists && is_media_server_running env then ⟨true, .Image⟩
  else ⟨false, .Text⟩

/-- `MessageHandler::router`. -/
def router (env : MediaEnv) (command args : String) : MessageResponse :=
  if command == "q" || command == "query" then amsat_query env args
  else if command == "dxw" then
    (if env.dxwExists && is_media_server_running env then ⟨true, .Image⟩
     else ⟨false, .Text⟩)
  else if command == "lotw" then lotw_query env
  else if command == "qo100" || command == "qo-100" then qo100_query env
  else ⟨false, .Text⟩

theorem is_media_server_running_false {env : MediaEnv}
    (h : env.media_server_url = none ∨ env.media_server_url = some none) :
    is_media_server_running env = false := by
  unfold is_media_server_running
  rcases h with h | h <;> rw [h]

theorem is_media_server_running_elim {env : MediaEnv}
    (h : is_media_server_running env = true) :
    ∃ url code, env.media_server_url = some (some url) ∧
      env.healthStatus = some code ∧ statusIsSuccess code = true := by
  unfold is_media_server_running at h
  cases hm : env.media_server_url with
  | none => rw [hm] at h; exact Bool.noConfusion h
  | some u =>
    cases u with
    | none => rw [hm] at h; exact Bool.noConfusion h
    | some url =>
      rw [hm] at h
      cases hh : env.healthStatus with
      | none => rw [hh] at h; exact Bool.noConfusion h
      | some code =>
        refine ⟨url, code, ?_, ?_, ?_⟩
        · first
          | exact hm
          | rfl
        · first
          | exact hh
          | rfl
        · first
          | (rw [hh] at h; exact h)
          | exact h

theorem router_image_running {env : MediaEnv} {c args : String}
    (h : (router env c args).content_type = ContentType.Image) :
    is_media_server_running env = true := by
  unfold router amsat_query lotw_query qo100_query at h
  cases hr : is_media_server_running env
  · rw [hr] at h
    simp only [Bool.not_false, if_true, Bool.and_false] at h
    split at h <;> simp_all
  · rfl

/-- C10: when `media_server_url` is absent (no configuration or an unset
field) the media health check is false and all six image-producing commands
(`q`, `query`, `dxw`, `lotw`, `qo100`, `qo-100`) answer with `success = false`
and `content_type = Text`; conversely any `Image` response implies a
configured `media_server_url` whose `/health` endpoint answered a 2xx
status. -/
theorem media_server_gate (env : MediaEnv) (args : String)
    (h : env.media_server_url = none ∨ env.media_server_url = some none) :
    (∀ c ∈ ["q", "query", "dxw", "lotw", "qo100", "qo-100"],
      (router env c args).success = false ∧
        (router env c args).content_type = ContentType.Text) ∧
      ∀ (env' : MediaEnv) (c' args' : String),
        (router env' c' args').content_type = ContentType.Image →
        ∃ url code, env'.media_server_url = some (some url) ∧
          env'.healthStatus = some code ∧ statusIsSuccess code = true := by
  have hr := is_media_server_running_false h
  constructor
  · intro c hc
    fin_cases hc <;>
      simp [router, amsat_query, lotw_query, qo100_query, hr]
  · intro env' c' args' himg
    exact is_media_server_running_elim (router_image_running himg)

theorem media_server_gate_witness :
    (∀ c ∈ ["q", "query", "dxw", "lotw", "qo100", "qo-100"],
      (router ⟨none, none, true, true, true, [], true⟩ c "ISS").success = false ∧
        (router ⟨none, none, true, true, true, [], true⟩ c "ISS").content_type =
          ContentType.Text) ∧
      ∀ (env' : MediaEnv) (c' args' : String),
        (router env' c' args').content_type = ContentType.Image →
        ∃ url code, env'.media_server_url = some (some url) ∧
          env'.healthStatus = some code ∧ statusIsSuccess code = true :=
  media_server_gate ⟨none, none, true, true, true, [], true⟩ "ISS" (Or.inl rfl)

end Rinko
